import Mathlib

set_option maxRecDepth 200000

/-!
Verification development for the strata-fit-v6-km-py repository.

This file gives a shallow embedding of the core of the package
(`preprocessing.py`, `partial.py`, `central.py`) and proves properties of it.

Modelling conventions:
* pandas DataFrames holding one patient's visits become `List VisitRow`;
  a raw table is a `List Patient` (one entry per `pat_ID`, `Year_diagnosis`
  taken as constant per patient, as in the STRATA-FIT schema).
* real-valued times and scores are rationals (`ℚ`); drug-class codes are
  integers, with `Option` for a missing (NaN) entry.
* pandas float division by zero produces NaN/inf; a column value that is not a
  finite defined number is modelled as `Option.none`.
* `pd.sort_values` is modelled with `List.insertionSort` (stable sort).
-/

/-- `EventType` from `types.py`: the event-indicator values used by the
package (`EXACT`, `CENSORED`, `INTERVAL`). -/
inductive EventType where
  | exact
  | censored
  | interval
deriving DecidableEq

/-- The value of the intermediate `cens` column computed in
`strata_fit_data_to_km_input` (`'interval'`, `'right'`, `'no'`). -/
inductive Cens where
  | interval
  | right
  | no
deriving DecidableEq

/-- One raw visit row (the columns of the STRATA-FIT schema that
`preprocessing.py` reads): months from diagnosis, the two integer-encoded
drug-class columns (NaN modelled as `none`), DAS28 and the two global
assessment scores. -/
structure VisitRow where
  month : ℚ
  bDMARD : Option ℤ
  tsDMARD : Option ℤ
  das28 : ℚ
  patGlobal : ℚ
  phGlobal : ℚ
deriving DecidableEq

/-- One patient of a raw table: `pat_ID`, `Year_diagnosis` (constant across the
patient's rows in the schema) and the visit rows. -/
structure Patient where
  patId : ℕ
  yearDiagnosis : ℤ
  visits : List VisitRow
deriving DecidableEq

/-- The inner loop of `compute_unique_dmards.unique_classes`: walk the visits
in time order keeping the lists `unique_b` / `unique_ts` of distinct codes seen
so far, and emit `len(set(unique_b + unique_ts))` at every visit. -/
def uniqueClassesAux : List ℤ → List ℤ → List (Option ℤ × Option ℤ) → List ℕ
  | _, _, [] => []
  | ub, uts, (b, t) :: rest =>
    let ub' := match b with
      | Option.none => ub
      | Option.some x => if x ∈ ub then ub else ub ++ [x]
    let uts' := match t with
      | Option.none => uts
      | Option.some x => if x ∈ uts then uts else uts ++ [x]
    ((ub' ++ uts').dedup).length :: uniqueClassesAux ub' uts' rest

/-- `compute_unique_dmards` from `preprocessing.py`, specialised to one
patient's visits already sorted by `Visit_months_from_diagnosis`: the
cumulative number of distinct b/tsDMARD classes at each visit. -/
def compute_unique_dmards (vs : List VisitRow) : List ℕ :=
  uniqueClassesAux [] [] (vs.map (fun v => (v.bDMARD, v.tsDMARD)))

/-- Running minimum continuation: `cumminAux m xs` is the tail of the running
minimum of `m :: xs`. -/
def cumminAux : ℕ → List ℕ → List ℕ
  | _, [] => []
  | m, x :: xs => min m x :: cumminAux (min m x) xs

/-- pandas `Series.cummin` (forward running minimum), as used on the
`cum_unique_btsDMARD` column. -/
def cummin : List ℕ → List ℕ
  | [] => []
  | x :: xs => x :: cumminAux x xs

/-- pandas `rolling(window=3, min_periods=1).mean()` on a column without
missing values: at index `i`, the mean of the last at most three values. -/
def rollingAvg3 (xs : List ℚ) : List ℚ :=
  (List.range xs.length).map (fun i =>
    let w := (xs.take (i + 1)).reverse.take 3
    w.sum / (w.length : ℚ))

/-- The per-visit D2T-RA flag of `strata_fit_data_to_km_input` step 2:
criterion 1 (`cum_unique_btsDMARD >= 2`), criterion 2
(`DAS28 > 3.2 or rolling_avg_DAS28 > 3.2`), criterion 3
(`Pat_global > 50 or Ph_global > 50`), all three simultaneously. -/
def d2tFlag (v : VisitRow) (cum : ℕ) (roll : ℚ) : Bool :=
  (decide (2 ≤ cum)) &&
    (decide ((3.2 : ℚ) < v.das28) || decide ((3.2 : ℚ) < roll)) &&
    (decide ((50 : ℚ) < v.patGlobal) || decide ((50 : ℚ) < v.phGlobal))

/-- The list of per-visit D2T-RA flags for one patient's sorted visits. -/
def d2tFlags (vs : List VisitRow) : List Bool :=
  List.zipWith (fun v cr => d2tFlag v cr.1 cr.2) vs
    ((compute_unique_dmards vs).zip (rollingAvg3 (vs.map (fun v => v.das28))))

/-- One row of the per-patient summary produced by
`strata_fit_data_to_km_input`. -/
structure KMRecord where
  patId : ℕ
  yearDiagnosis : ℤ
  d2tEver : Bool
  cumMin : ℕ
  minFU : ℚ
  tte : ℚ
  maxFU : ℚ
  cens : Cens
  interval_start : ℚ
  interval_end : ℚ
  event_indicator : EventType
deriving DecidableEq

/-- The diagnosis-year clip of `strata_fit_data_to_km_input` step 1: patients
diagnosed before 2006 have the year raised to 2006 and each visit month
shifted back by `(2006 - year) * 12`; visits with a negative shifted month are
dropped. -/
def clipVisits (p : Patient) : List VisitRow :=
  let shift : ℚ :=
    if p.yearDiagnosis < 2006 then ((2006 - p.yearDiagnosis : ℤ) : ℚ) * 12 else 0
  (p.visits.map (fun v => { v with month := v.month - shift })).filter
    (fun v => decide (0 ≤ v.month))

/-- `strata_fit_data_to_km_input` from `preprocessing.py`, per patient: clip
years, sort visits, track cumulative distinct drug classes and their running
minimum, flag the D2T-RA state per visit, and aggregate into one
interval-survival record.  A patient with no visit left after the clip
contributes no record. -/
def strata_fit_data_to_km_input (p : Patient) : Option KMRecord :=
  let y : ℤ := if p.yearDiagnosis < 2006 then 2006 else p.yearDiagnosis
  let vs := List.insertionSort (fun a b : VisitRow => a.month ≤ b.month) (clipVisits p)
  match vs with
  | [] => Option.none
  | v0 :: rest =>
    let months := (v0 :: rest).map (fun v => v.month)
    let flags := d2tFlags (v0 :: rest)
    let ever := flags.any id
    let cmin := (cummin (compute_unique_dmards (v0 :: rest))).foldl max 0
    let minFU := rest.foldl (fun m w => min m w.month) v0.month
    let maxFU := rest.foldl (fun m w => max m w.month) v0.month
    let flagged := (months.zip flags).filterMap
      (fun mf => if mf.2 then Option.some mf.1 else Option.none)
    let tte := match flagged with
      | [] => maxFU
      | m :: ms => ms.foldl min m
    let cens :=
      if ever && decide (2 < cmin) then Cens.interval
      else if !ever then Cens.right
      else Cens.no
    Option.some
      { patId := p.patId
        yearDiagnosis := y
        d2tEver := ever
        cumMin := cmin
        minFU := minFU
        tte := tte
        maxFU := maxFU
        cens := cens
        interval_start := if cens = Cens.interval then 0 else tte
        interval_end := if cens = Cens.interval then minFU else tte
        event_indicator :=
          match cens with
          | Cens.interval => EventType.interval
          | Cens.no => EventType.exact
          | Cens.right => EventType.censored }

/-- One visit-level row of the intermediate table of
`compute_d2t_prevalence_by_year`: patient id, calendar year of the visit
(`Year_diagnosis + (Visit_months_from_diagnosis / 12).astype(int)`, equal to
the floor since months are non-negative after the clip), and the visit's
D2T-RA flag. -/
structure VisitYearRow where
  patId : ℕ
  yearVisit : ℤ
  d2t : Bool
deriving DecidableEq

/-- One output row of `compute_d2t_prevalence_by_year`: calendar year,
`total_patients` (`nunique` of `pat_ID` among that year's visits) and
`d2t_positive` (sum of the visit-level D2T-RA flags of that year). -/
structure PrevRow where
  yearVisit : ℤ
  totalPatients : ℕ
  d2tPositive : ℕ
deriving DecidableEq

/-- The visit-level part of `compute_d2t_prevalence_by_year` for one patient:
clip years, sort visits, compute the D2T-RA flag per visit and attach the
calendar year of each visit. -/
def visitYearRows (p : Patient) : List VisitYearRow :=
  let y : ℤ := if p.yearDiagnosis < 2006 then 2006 else p.yearDiagnosis
  let vs := List.insertionSort (fun a b : VisitRow => a.month ≤ b.month) (clipVisits p)
  List.zipWith
    (fun (v : VisitRow) (f : Bool) =>
      { patId := p.patId, yearVisit := y + Int.floor (v.month / (12 : ℚ)), d2t := f })
    vs (d2tFlags vs)

/-- `compute_d2t_prevalence_by_year` from `preprocessing.py`: group the
visit-level rows by calendar year (keys ascending, as pandas `groupby` sorts
them) and aggregate the distinct-patient count and the number of
D2T-positive visits. -/
def compute_d2t_prevalence_by_year (ps : List Patient) : List PrevRow :=
  let rows := (ps.map visitYearRows).flatten
  let years := List.insertionSort (fun a b : ℤ => a ≤ b) (rows.map (fun r => r.yearVisit)).dedup
  years.map (fun y =>
    let g := rows.filter (fun r => decide (r.yearVisit = y))
    { yearVisit := y
      totalPatients := ((g.map (fun r => r.patId)).dedup).length
      d2tPositive := g.countP (fun r => r.d2t) })

/-- One aggregated prevalence row produced by `kaplan_meier_central` step 4:
per-year sums across organizations plus the derived
`D2T_RA_prevalence = d2t_positive / total_patients`. -/
structure PrevOut where
  yearVisit : ℤ
  totalPatients : ℕ
  d2tPositive : ℕ
  prevalence : ℚ
deriving DecidableEq

/-- The prevalence aggregation of `kaplan_meier_central` (lines 124-127):
concatenate the organizations' tables, group by `Year_visit` (ascending) with
element-wise sums, then divide `d2t_positive` by `total_patients`. -/
def aggregate_prevalence (tables : List (List PrevRow)) : List PrevOut :=
  let rows := tables.flatten
  let years := List.insertionSort (fun a b : ℤ => a ≤ b) (rows.map (fun r => r.yearVisit)).dedup
  years.map (fun y =>
    let g := rows.filter (fun r => decide (r.yearVisit = y))
    let tot := (g.map (fun r => r.totalPatients)).sum
    let pos := (g.map (fun r => r.d2tPositive)).sum
    { yearVisit := y, totalPatients := tot, d2tPositive := pos,
      prevalence := (pos : ℚ) / (tot : ℚ) })

/-- The columns of a classified record that `partial.py` consumes:
`interval_start`, `interval_end`, `event_indicator`. -/
structure SurvInput where
  interval_start : ℚ
  interval_end : ℚ
  event_indicator : EventType
deriving DecidableEq

/-- Project a classified per-patient record onto the columns read by
`get_km_event_table`. -/
def toSurvInput (r : KMRecord) : SurvInput :=
  { interval_start := r.interval_start, interval_end := r.interval_end,
    event_indicator := r.event_indicator }

/-- One row of the event table built by `get_km_event_table`: the grid time
and the `removed`/`observed`/`interval`/`censored`/`at_risk` counts. -/
structure EventRow where
  t : ℚ
  removed : ℕ
  observed : ℕ
  interval : ℕ
  censored : ℕ
  atRisk : ℕ
deriving DecidableEq

instance : Inhabited EventRow := ⟨⟨0, 0, 0, 0, 0, 0⟩⟩

/-- Assemble event rows from per-time `(t, observed, interval, censored)`
counts, with `removed` their sum and `at_risk` the reverse cumulative sum of
`removed` (line 103 of `partial.py`). -/
def buildRows : List (ℚ × ℕ × ℕ × ℕ) → List EventRow
  | [] => []
  | (t, o, i, c) :: rest =>
    let rs := buildRows rest
    { t := t, removed := o + i + c, observed := o, interval := i, censored := c,
      atRisk := (o + i + c) + (rs.map (fun r => r.removed)).sum } :: rs

/-- `get_km_event_table` from `partial.py`, after preprocessing and noise: on
the sorted unique event-time grid, count exact events by `interval_start`,
right-censored events by `interval_start` and interval-censored events by
`interval_end`, then derive `removed` and `at_risk`. -/
def get_km_event_table (records : List SurvInput) (uniqueEventTimes : List ℚ) :
    List EventRow :=
  buildRows ((List.insertionSort (fun a b : ℚ => a ≤ b) uniqueEventTimes).map (fun t =>
    (t,
     records.countP (fun r =>
       decide (r.event_indicator = EventType.exact ∧ r.interval_start = t)),
     records.countP (fun r =>
       decide (r.event_indicator = EventType.interval ∧ r.interval_end = t)),
     records.countP (fun r =>
       decide (r.event_indicator = EventType.censored ∧ r.interval_start = t)))))

/-- Element-wise sum of two event-table rows with the same time key (the
effect of `pd.concat(...).groupby(interval_start).sum()` on matching rows:
every count column, `at_risk` included, is summed). -/
def addRow (a b : EventRow) : EventRow :=
  { t := a.t, removed := a.removed + b.removed, observed := a.observed + b.observed,
    interval := a.interval + b.interval, censored := a.censored + b.censored,
    atRisk := a.atRisk + b.atRisk }

/-- Element-wise sum of two event tables on the same grid. -/
def addTable (a b : List EventRow) : List EventRow :=
  List.zipWith addRow a b

/-- The event-table summation of `kaplan_meier_central` line 112: the local
tables (all indexed by the same sorted grid) summed element-wise. -/
def sumTables : List (List EventRow) → List EventRow
  | [] => []
  | t :: ts => ts.foldl addTable t

/-- The hazard column of `kaplan_meier_central` line 113:
`(observed + interval * 0.5) / at_risk`.  pandas float division by a zero
`at_risk` yields NaN (or infinity), modelled as `Option.none`. -/
def hazardCol (tbl : List EventRow) : List (Option ℚ) :=
  tbl.map (fun r =>
    if r.atRisk = 0 then Option.none
    else Option.some (((r.observed : ℚ) + (r.interval : ℚ) * 0.5) / (r.atRisk : ℚ)))

/-- The running product behind `(1 - hazard).cumprod()`: `acc` carries the
product so far (`none` once a NaN has been met, which pandas propagates), and
each emitted entry is `1 - acc'`. -/
def cumProdAux : Option ℚ → List (Option ℚ) → List (Option ℚ)
  | _, [] => []
  | acc, h :: rest =>
    let acc' := match acc, h with
      | Option.some a, Option.some x => Option.some (a * (1 - x))
      | _, _ => Option.none
    acc'.map (fun p => 1 - p) :: cumProdAux acc' rest

/-- The cumulative-incidence column of `kaplan_meier_central` line 114:
`1 - (1 - hazard).cumprod()` down the table (ascending grid order). -/
def cumIncCol (hz : List (Option ℚ)) : List (Option ℚ) :=
  cumProdAux (Option.some 1) hz

/-- The aggregated output of `kaplan_meier_central` step 3: the summed event
table with its derived hazard and cumulative-incidence columns. -/
structure KMCurve where
  table : List EventRow
  hazard : List (Option ℚ)
  cumInc : List (Option ℚ)
deriving DecidableEq

/-- Steps 3 of `kaplan_meier_central` (lines 112-114): sum the local event
tables element-wise, then derive hazard and cumulative incidence from the
summed counts. -/
def kmAggregate (tables : List (List EventRow)) : KMCurve :=
  let s := sumTables tables
  { table := s, hazard := hazardCol s, cumInc := cumIncCol (hazardCol s) }

/-- `NoiseType` from `types.py`: the noise policies `NONE`, `GAUSSIAN`,
`POISSON`. -/
inductive NoiseType where
  | none
  | gaussian
  | poisson
deriving DecidableEq

/-- Modelled from the spec: the pseudo-random generator state transition
behind `utils.add_noise_to_event_times`, whose source is absent from `src/`.
The spec fixes no noise-magnitude formula, only that a seed makes the
transform fully reproducible, so the generator is a deterministic linear
congruential step. -/
def lcg (s : ℕ) : ℕ :=
  (s * 1103515245 + 12345) % 2147483648

/-- Modelled from the spec: the initial generator state derived from the
optional `random_seed` (an unseeded run is modelled as seed 0, since a
shallow embedding is deterministic). -/
def seedInit (seed : Option ℤ) : ℕ :=
  (seed.getD 0).natAbs % 2147483648

/-- Modelled from the spec: one pseudo-random draw in `[-1, 1]` together with
the advanced generator state. -/
def noiseDraw (g : ℕ) : ℚ × ℕ :=
  let g' := lcg g
  ((((g' % 2001 : ℕ) : ℚ) - 1000) / 1000, g')

/-- Modelled from the spec: perturb each time by a scaled draw, clamping
negative results to zero (a time cannot precede diagnosis), threading the
generator state. -/
def noiseListAux (g : ℕ) (scale : ℚ) : List ℚ → List ℚ × ℕ
  | [] => ([], g)
  | t :: ts =>
    let d := noiseDraw g
    let rest := noiseListAux d.2 scale ts
    (max 0 (t + scale * d.1) :: rest.1, rest.2)

/-- Modelled from the spec: `utils.add_noise_to_event_times` run from an
explicit generator state.  `NONE` is the identity; `GAUSSIAN` requires a
positive signal-to-noise ratio and scales the draws by its reciprocal, its
absence being a fatal configuration error; `POISSON` uses unscaled draws. -/
def add_noise_run (g : ℕ) (times : List ℚ) (noise_type : NoiseType)
    (snr : Option ℚ) : Except String (List ℚ) × ℕ :=
  match noise_type with
  | NoiseType.none => (Except.ok times, g)
  | NoiseType.gaussian =>
    match snr with
    | Option.none => (Except.error "snr must be provided for GAUSSIAN noise", g)
    | Option.some s =>
      if s ≤ 0 then (Except.error "snr must be positive", g)
      else
        let r := noiseListAux g (1 / s) times
        (Except.ok r.1, r.2)
  | NoiseType.poisson =>
    let r := noiseListAux g 1 times
    (Except.ok r.1, r.2)

/-- Modelled from the spec: `utils.add_noise_to_event_times` as called by
`partial.py` — every call re-initialises the generator from `random_seed`,
which is what makes the transform reproducible. -/
def add_noise_to_event_times (times : List ℚ) (noise_type : NoiseType)
    (snr : Option ℚ) (random_seed : Option ℤ) : Except String (List ℚ) :=
  (add_noise_run (seedInit random_seed) times noise_type snr).1

/-- The classification an organization runs at the start of both partial
tasks: `strata_fit_data_to_km_input` per patient, projected onto the columns
the event-table round reads. -/
def classify_org (ps : List Patient) : List SurvInput :=
  (ps.filterMap strata_fit_data_to_km_input).map toSurvInput

/-- `get_unique_event_times` from `partial.py`: classify, noise both time
columns, concatenate `interval_start` then `interval_end` and keep the unique
values. -/
def get_unique_event_times_task (ps : List Patient) (noise_type : NoiseType)
    (snr : Option ℚ) (random_seed : Option ℤ) : Except String (List ℚ) :=
  let rs := classify_org ps
  match add_noise_to_event_times (rs.map (fun r => r.interval_start)) noise_type snr random_seed with
  | Except.error e => Except.error e
  | Except.ok starts =>
    match add_noise_to_event_times (rs.map (fun r => r.interval_end)) noise_type snr random_seed with
    | Except.error e => Except.error e
    | Except.ok ends => Except.ok ((starts ++ ends).dedup)

/-- `get_km_event_table` from `partial.py` including its preprocessing and
noise steps: classify, noise both time columns, then build the event table on
the supplied grid. -/
def get_km_event_table_task (ps : List Patient) (uniqueEventTimes : List ℚ)
    (noise_type : NoiseType) (snr : Option ℚ) (random_seed : Option ℤ) :
    Except String (List EventRow) :=
  let rs := classify_org ps
  match add_noise_to_event_times (rs.map (fun r => r.interval_start)) noise_type snr random_seed with
  | Except.error e => Except.error e
  | Except.ok starts =>
    match add_noise_to_event_times (rs.map (fun r => r.interval_end)) noise_type snr random_seed with
    | Except.error e => Except.error e
    | Except.ok ends =>
      Except.ok (get_km_event_table
        (List.zipWith
          (fun (se : ℚ × ℚ) (ind : EventType) =>
            { interval_start := se.1, interval_end := se.2, event_indicator := ind })
          (starts.zip ends) (rs.map (fun r => r.event_indicator)))
        uniqueEventTimes)

/-- The list of perturbed times `add_noise_to_event_times` returns on a valid
noise configuration (`NONE`, `GAUSSIAN` with positive snr, `POISSON`); on an
invalid configuration the transform fails and this value is unused. -/
def noiseValue (times : List ℚ) (noise_type : NoiseType) (snr : Option ℚ)
    (random_seed : Option ℤ) : List ℚ :=
  match noise_type with
  | NoiseType.none => times
  | NoiseType.gaussian =>
    match snr with
    | Option.none => times
    | Option.some s =>
      if s ≤ 0 then times
      else (noiseListAux (seedInit random_seed) (1 / s) times).1
  | NoiseType.poisson => (noiseListAux (seedInit random_seed) 1 times).1

/-- A noise configuration on which the noise transform succeeds: `GAUSSIAN`
requires a positive signal-to-noise ratio, the other policies always
succeed. -/
def noiseConfigOk (noise_type : NoiseType) (snr : Option ℚ) : Prop :=
  noise_type = NoiseType.gaussian → ∃ s, snr = Option.some s ∧ 0 < s

/-- The unique-time list an organization reports in round 1 on a valid noise
configuration: the noised `interval_start` column, then the noised
`interval_end` column, deduplicated. -/
def uniqueTimesValue (ps : List Patient) (noise_type : NoiseType) (snr : Option ℚ)
    (random_seed : Option ℤ) : List ℚ :=
  ((noiseValue ((classify_org ps).map (fun r => r.interval_start)) noise_type snr
      random_seed) ++
    (noiseValue ((classify_org ps).map (fun r => r.interval_end)) noise_type snr
      random_seed)).dedup

/-- The noised classified records an organization feeds to
`get_km_event_table` in round 2 on a valid noise configuration: both time
columns re-noised from the same `random_seed`, as every call of the noise
transform re-seeds. -/
def noisedRecords (ps : List Patient) (noise_type : NoiseType) (snr : Option ℚ)
    (random_seed : Option ℤ) : List SurvInput :=
  List.zipWith
    (fun (se : ℚ × ℚ) (ind : EventType) =>
      { interval_start := se.1, interval_end := se.2, event_indicator := ind })
    ((noiseValue ((classify_org ps).map (fun r => r.interval_start)) noise_type snr
        random_seed).zip
      (noiseValue ((classify_org ps).map (fun r => r.interval_end)) noise_type snr
        random_seed))
    ((classify_org ps).map (fun r => r.event_indicator))

/-- Modelled from the spec: `MINIMUM_ORGANIZATIONS` lives in `types.py`,
which is absent from `src/`; the spec's quorum scenario uses a threshold
of 3. -/
def MINIMUM_ORGANIZATIONS : ℕ := 3

/-- Lines 79-80 of `central.py`: an empty or missing
`organizations_to_include` defaults to all known organizations. -/
def resolve_orgs (allOrgIds : List ℕ) : Option (List ℕ) → List ℕ
  | Option.none => allOrgIds
  | Option.some [] => allOrgIds
  | Option.some l => l

/-- The final payload of `kaplan_meier_central`: the survival table with its
derived columns and the prevalence table. -/
structure CentralResult where
  km : KMCurve
  prevalence : List PrevOut
deriving DecidableEq

/-- `kaplan_meier_central` from `central.py`.  The orchestrator transport is
out of scope; `orgData` stands for the per-organization raw tables the
dispatched tasks read.  The quorum check precedes every round; each round
maps the corresponding partial task over the included organizations and a
failing organization aborts the computation. -/
def kaplan_meier_central (allOrgIds : List ℕ)
    (organizations_to_include : Option (List ℕ)) (noise_type : NoiseType)
    (snr : Option ℚ) (random_seed : Option ℤ) (orgData : ℕ → List Patient) :
    Except String CentralResult :=
  let orgs := resolve_orgs allOrgIds organizations_to_include
  if orgs.length < MINIMUM_ORGANIZATIONS then
    Except.error "Minimum number of organizations not met (required: 3)."
  else
    match orgs.mapM (fun o =>
        get_unique_event_times_task (orgData o) noise_type snr random_seed) with
    | Except.error e => Except.error e
    | Except.ok timeLists =>
      let grid := List.insertionSort (fun a b : ℚ => a ≤ b) timeLists.flatten.dedup
      match orgs.mapM (fun o =>
          get_km_event_table_task (orgData o) grid noise_type snr random_seed) with
      | Except.error e => Except.error e
      | Except.ok tables =>
        Except.ok
          { km := kmAggregate tables
            prevalence := aggregate_prevalence
              (orgs.map (fun o => compute_d2t_prevalence_by_year (orgData o))) }

/-- The raw visit table of the scenario in claim C1: criteria met at month
18, a third distinct drug class by month 24, earliest follow-up month 0,
follow-up ending at month 40. -/
def patC1 : Patient :=
  { patId := 1, yearDiagnosis := 2010, visits :=
    [ { month := 0, bDMARD := Option.some 1, tsDMARD := Option.none,
        das28 := 2, patGlobal := 10, phGlobal := 10 },
      { month := 12, bDMARD := Option.some 2, tsDMARD := Option.none,
        das28 := 2, patGlobal := 10, phGlobal := 10 },
      { month := 18, bDMARD := Option.none, tsDMARD := Option.none,
        das28 := 4, patGlobal := 60, phGlobal := 10 },
      { month := 24, bDMARD := Option.none, tsDMARD := Option.some 5,
        das28 := 2, patGlobal := 10, phGlobal := 10 },
      { month := 40, bDMARD := Option.none, tsDMARD := Option.none,
        das28 := 2, patGlobal := 10, phGlobal := 10 } ] }

/-- A one-visit patient used to instantiate hypotheses of theorems at a
concrete input. -/
def patW : Patient :=
  { patId := 7, yearDiagnosis := 2001, visits :=
    [ { month := 70, bDMARD := Option.some 3, tsDMARD := Option.some 4,
        das28 := 5, patGlobal := 80, phGlobal := 20 } ] }

/-- A patient with two D2T-positive visits in the same calendar year: both
visits (months 0 and 1 of diagnosis year 2010) satisfy all three criteria. -/
def patC3 : Patient :=
  { patId := 2, yearDiagnosis := 2010, visits :=
    [ { month := 0, bDMARD := Option.some 1, tsDMARD := Option.some 2,
        das28 := 4, patGlobal := 60, phGlobal := 10 },
      { month := 1, bDMARD := Option.none, tsDMARD := Option.none,
        das28 := 4, patGlobal := 60, phGlobal := 10 } ] }

/-- The element-wise sum, at grid position `j`, of a count column across a
list of event tables (the value the summed table carries at that position). -/
def colSum (tables : List (List EventRow)) (f : EventRow → ℕ) (j : ℕ) : ℕ :=
  (tables.map (fun tb => f (tb.getD j default))).sum

/-- The spec's step-C hazard formula, written directly on the summed counts:
`hazard(t) = (observed(t) + interval(t) * 0.5) / at_risk(t)`. -/
def specHazard (tables : List (List EventRow)) (j : ℕ) : ℚ :=
  ((colSum tables (fun r => r.observed) j : ℚ) +
    (colSum tables (fun r => r.interval) j : ℚ) * 0.5) /
    (colSum tables (fun r => r.atRisk) j : ℚ)

/-- The spec's step-C cumulative-incidence formula:
`1 - prod over s ≤ t of (1 - hazard(s))`, taken in ascending grid order. -/
def specCumInc (tables : List (List EventRow)) (i : ℕ) : ℚ :=
  1 - ((List.range (i + 1)).map (fun j => 1 - specHazard tables j)).prod

/-- The concrete output of `kaplan_meier_central` on three organizations each
holding `patW`, used to instantiate C7. -/
def resC7w : CentralResult :=
  { km :=
      { table :=
          [{ t := 10, removed := 3, observed := 3, interval := 0, censored := 0,
             atRisk := 3 }]
        hazard := [Option.some 1]
        cumInc := [Option.some 1] }
    prevalence :=
      [{ yearVisit := 2006, totalPatients := 3, d2tPositive := 3, prevalence := 1 }] }

/-! ### Lemmas about the patient classifier -/

lemma mem_cumminAux_le {l : List ℕ} {m x : ℕ} (hx : x ∈ cumminAux m l) : x ≤ m := by
  induction l generalizing m with
  | nil => simp [cumminAux] at hx
  | cons a l ih =>
    simp only [cumminAux, List.mem_cons] at hx
    rcases hx with h | h
    · exact h ▸ min_le_left _ _
    · exact le_trans (ih h) (min_le_left _ _)

lemma foldl_max_le {l : List ℕ} {a b : ℕ} (ha : a ≤ b) (hl : ∀ x ∈ l, x ≤ b) :
    l.foldl max a ≤ b := by
  induction l generalizing a with
  | nil => simpa using ha
  | cons x l ih =>
    simp only [List.foldl_cons]
    exact ih (max_le ha (hl x (by simp))) (fun y hy => hl y (by simp [hy]))

lemma uniqueClassesAux_head_le_two (b t : Option ℤ)
    (rest : List (Option ℤ × Option ℤ)) :
    ∃ c0 cs, uniqueClassesAux [] [] ((b, t) :: rest) = c0 :: cs ∧ c0 ≤ 2 := by
  have hlen : ∀ ub1 uts1 : List ℤ, ub1.length ≤ 1 → uts1.length ≤ 1 →
      ((ub1 ++ uts1).dedup).length ≤ 2 := by
    intro ub1 uts1 h1 h2
    refine le_trans (List.Sublist.length_le (List.dedup_sublist _)) ?_
    rw [List.length_append]
    omega
  cases b with
  | none =>
    cases t with
    | none => exact ⟨_, _, rfl, by simp⟩
    | some y => exact ⟨_, _, rfl, by simp⟩
  | some x =>
    cases t with
    | none => exact ⟨_, _, rfl, by simp⟩
    | some y => exact ⟨_, _, rfl, by simpa using hlen [x] [y] (by simp) (by simp)⟩

lemma cummin_foldl_max_le_two (v : VisitRow) (rest : List VisitRow) :
    (cummin (compute_unique_dmards (v :: rest))).foldl max 0 ≤ 2 := by
  obtain ⟨c0, cs, hc, hc0⟩ :=
    uniqueClassesAux_head_le_two v.bDMARD v.tsDMARD
      (rest.map (fun w => (w.bDMARD, w.tsDMARD)))
  have hcu : compute_unique_dmards (v :: rest) = c0 :: cs := by
    simpa [compute_unique_dmards] using hc
  rw [hcu]
  simp only [cummin]
  refine foldl_max_le (by omega) ?_
  intro x hx
  rcases List.mem_cons.mp hx with h | h
  · omega
  · exact le_trans (mem_cumminAux_le h) hc0

lemma km_input_record {p : Patient} {r : KMRecord}
    (h : strata_fit_data_to_km_input p = Option.some r) :
    r.cens ≠ Cens.interval ∧ r.event_indicator ≠ EventType.interval ∧
    (r.event_indicator = EventType.exact ∨ r.event_indicator = EventType.censored) ∧
    r.interval_start = r.tte ∧ r.interval_end = r.tte ∧ r.cumMin ≤ 2 := by
  unfold strata_fit_data_to_km_input at h
  rcases hsort : List.insertionSort (fun a b : VisitRow => a.month ≤ b.month) (clipVisits p)
    with _ | ⟨v0, rest⟩
  · rw [hsort] at h
    simp at h
  · rw [hsort] at h
    simp only [Option.some.injEq] at h
    subst h
    have hle := cummin_foldl_max_le_two v0 rest
    have hdec : decide (2 < (cummin (compute_unique_dmards (v0 :: rest))).foldl max 0) = false :=
      decide_eq_false (by omega)
    simp only [hdec, Bool.and_false, Bool.false_eq_true, if_false]
    cases hev : (d2tFlags (v0 :: rest)).any id <;> simp [hle]


/-- C1: a patient who meets all three D2T criteria at visit month 18, reaches
3 distinct drug classes by month 24, with earliest follow-up month 0 and
follow-up ending at month 40.  The claim (and the spec scenario) expect
censoring category "interval" with `interval_start = 0`, `interval_end = 0`
and `TTE = 18`.  The code instead produces an "exact" record with
`interval_start = interval_end = TTE = 18`: `cum_btsDMARDmin` is a forward
`cummin` of a non-decreasing count, so its per-patient maximum here is 1,
the `cum_btsDMARDmin > 2` condition fails and the `'interval'` branch is
unreachable.  This theorem evaluates the classifier at the failing input. -/
theorem C1_code_eval :
    strata_fit_data_to_km_input patC1 =
      Option.some
        { patId := 1, yearDiagnosis := 2010, d2tEver := true, cumMin := 1,
          minFU := 0, tte := 18, maxFU := 40, cens := Cens.no,
          interval_start := 18, interval_end := 18,
          event_indicator := EventType.exact } := by
  with_unfolding_all decide

/-- C2: for every raw visit table, every per-patient record produced by
`strata_fit_data_to_km_input` has event indicator "exact" or "censored" and
never "interval", and hence `interval_start = interval_end = TTE`; the
per-patient maximum of `cum_btsDMARDmin` never exceeds 2, so the condition
`cum_btsDMARDmin > 2` selecting the interval category is unsatisfiable. -/
theorem C2_no_interval_records (p : Patient) (r : KMRecord)
    (h : strata_fit_data_to_km_input p = Option.some r) :
    r.event_indicator ≠ EventType.interval ∧
    (r.event_indicator = EventType.exact ∨ r.event_indicator = EventType.censored) ∧
    r.interval_start = r.tte ∧ r.interval_end = r.tte ∧ r.cumMin ≤ 2 := by
  obtain ⟨-, h1, h2, h3, h4, h5⟩ := km_input_record h
  exact ⟨h1, h2, h3, h4, h5⟩


/-- Witness for C2 at a concrete input: `patW` (diagnosed 2001, one visit
shifted to month 10) yields an exact record, not an interval one. -/
theorem C2_no_interval_records_witness :
    ∃ r, strata_fit_data_to_km_input patW = Option.some r ∧
      (r.event_indicator ≠ EventType.interval ∧
        (r.event_indicator = EventType.exact ∨ r.event_indicator = EventType.censored) ∧
        r.interval_start = r.tte ∧ r.interval_end = r.tte ∧ r.cumMin ≤ 2) := by
  refine ⟨{ patId := 7, yearDiagnosis := 2006, d2tEver := true, cumMin := 2,
            minFU := 10, tte := 10, maxFU := 10, cens := Cens.no,
            interval_start := 10, interval_end := 10,
            event_indicator := EventType.exact }, ?_, ?_⟩
  · with_unfolding_all decide
  · exact C2_no_interval_records patW _ (by with_unfolding_all decide)

/-! ### Lemmas about the prevalence tables -/

lemma prevRow_total_pos (ps : List Patient) {q : PrevRow}
    (hq : q ∈ compute_d2t_prevalence_by_year ps) : 1 ≤ q.totalPatients := by
  unfold compute_d2t_prevalence_by_year at hq
  rw [List.mem_map] at hq
  obtain ⟨y, hy, hq⟩ := hq
  have hy' : y ∈ (((ps.map visitYearRows).flatten).map (fun r => r.yearVisit)).dedup :=
    ((List.perm_insertionSort _ _).mem_iff).mp hy
  rw [List.mem_dedup, List.mem_map] at hy'
  obtain ⟨vrow, hvrow, hvy⟩ := hy'
  subst hq
  have hmem : vrow ∈ ((ps.map visitYearRows).flatten).filter
      (fun r => decide (r.yearVisit = y)) := by
    rw [List.mem_filter]
    exact ⟨hvrow, by simp [hvy]⟩
  have hpid : vrow.patId ∈ ((((ps.map visitYearRows).flatten).filter
      (fun r => decide (r.yearVisit = y))).map (fun r => r.patId)).dedup := by
    rw [List.mem_dedup, List.mem_map]
    exact ⟨vrow, hmem, rfl⟩
  simpa using List.length_pos.mpr (List.ne_nil_of_mem hpid)

lemma aggregate_prevalence_row_shape (tables : List (List PrevRow)) {po : PrevOut}
    (hpo : po ∈ aggregate_prevalence tables) :
    ∃ q ∈ tables.flatten, q.yearVisit = po.yearVisit ∧
      q.totalPatients ≤ po.totalPatients ∧
      po.prevalence = (po.d2tPositive : ℚ) / (po.totalPatients : ℚ) := by
  unfold aggregate_prevalence at hpo
  rw [List.mem_map] at hpo
  obtain ⟨y, hy, hpo⟩ := hpo
  have hy' : y ∈ ((tables.flatten).map (fun r => r.yearVisit)).dedup :=
    ((List.perm_insertionSort _ _).mem_iff).mp hy
  rw [List.mem_dedup, List.mem_map] at hy'
  obtain ⟨q, hq, hqy⟩ := hy'
  subst hpo
  refine ⟨q, hq, hqy, ?_, rfl⟩
  have hmem : q.totalPatients ∈ (((tables.flatten).filter
      (fun r => decide (r.yearVisit = y))).map (fun r => r.totalPatients)) := by
    rw [List.mem_map]
    exact ⟨q, by rw [List.mem_filter]; exact ⟨hq, by simp [hqy]⟩, rfl⟩
  exact List.single_le_sum (fun x _ => Nat.zero_le x) _ hmem


/-- Counterexample to C3: `d2t_positive` counts D2T-positive *visits* while
`total_patients` counts distinct patients, so one patient with two
qualifying visits in the same year yields an emitted row whose derived
prevalence is 2, outside `[0,1]`, with the count meeting the state (2)
exceeding the count of distinct patients (1). -/
theorem C3_counterexample :
    aggregate_prevalence [compute_d2t_prevalence_by_year [patC3]] =
      [{ yearVisit := 2010, totalPatients := 1, d2tPositive := 2, prevalence := 2 }] ∧
    ¬ ((2 : ℚ) ≤ 1) := by
  constructor
  · with_unfolding_all decide
  · with_unfolding_all decide

/-- C3 as amended: every emitted row of the aggregated yearly prevalence
table has at least one observed patient and a non-negative derived
prevalence fraction; since `d2t_positive` counts qualifying visits rather
than patients, the fraction is not bounded by 1. -/
theorem C3_amended (orgs : List (List Patient)) (po : PrevOut)
    (hpo : po ∈ aggregate_prevalence (orgs.map compute_d2t_prevalence_by_year)) :
    1 ≤ po.totalPatients ∧ 0 ≤ po.prevalence := by
  obtain ⟨q, hq, -, hle, hdiv⟩ := aggregate_prevalence_row_shape _ hpo
  rw [List.mem_flatten] at hq
  obtain ⟨tbl, htbl, hqtbl⟩ := hq
  rw [List.mem_map] at htbl
  obtain ⟨ps, -, htbl⟩ := htbl
  subst htbl
  refine ⟨le_trans (prevRow_total_pos ps hqtbl) hle, ?_⟩
  rw [hdiv]
  positivity

/-- Witness for the amended C3 at a concrete input: the single row produced
from `patW` alone. -/
theorem C3_amended_witness :
    1 ≤ ({ yearVisit := 2006, totalPatients := 1, d2tPositive := 1,
           prevalence := 1 } : PrevOut).totalPatients ∧
    0 ≤ ({ yearVisit := 2006, totalPatients := 1, d2tPositive := 1,
           prevalence := 1 } : PrevOut).prevalence :=
  C3_amended [[patW]] _ (by with_unfolding_all decide)

/-! ### Lemmas about event tables and their summation -/

lemma buildRows_length (l : List (ℚ × ℕ × ℕ × ℕ)) : (buildRows l).length = l.length := by
  induction l with
  | nil => rfl
  | cons x rest ih => simp [buildRows, ih]

lemma buildRows_atRisk (l : List (ℚ × ℕ × ℕ × ℕ)) (i : ℕ) (hi : i < l.length) :
    ((buildRows l).getD i default).atRisk =
      (((buildRows l).drop i).map (fun r => r.removed)).sum := by
  induction l generalizing i with
  | nil => simp at hi
  | cons x rest ih =>
    obtain ⟨t, o, iv, c⟩ := x
    cases i with
    | zero => simp [buildRows]
    | succ j =>
      have hj : j < rest.length := by simpa using hi
      simpa [buildRows] using ih j hj

lemma sum_drop_le (xs : List ℕ) (k : ℕ) : (xs.drop k).sum ≤ xs.sum := by
  induction xs generalizing k with
  | nil => simp
  | cons x rest ih =>
    cases k with
    | zero => simp
    | succ j => simpa using le_trans (ih j) (Nat.le_add_left _ _)

lemma sum_drop_anti (xs : List ℕ) {i j : ℕ} (hij : i ≤ j) :
    (xs.drop j).sum ≤ (xs.drop i).sum := by
  have h : xs.drop j = (xs.drop i).drop (j - i) := by
    rw [List.drop_drop]
    congr 1
    omega
  rw [h]
  exact sum_drop_le _ _

lemma addTable_length (a b : List EventRow) :
    (addTable a b).length = min a.length b.length := by
  simp [addTable]

lemma addTable_getD (a b : List EventRow) (i : ℕ) (hia : i < a.length)
    (hib : i < b.length) :
    (addTable a b).getD i default = addRow (a.getD i default) (b.getD i default) := by
  have hiz : i < (addTable a b).length := by
    rw [addTable_length]
    omega
  rw [List.getD_eq_getElem _ _ hiz, List.getD_eq_getElem _ _ hia,
    List.getD_eq_getElem _ _ hib]
  simp [addTable]

lemma foldl_addTable_length (ts : List (List EventRow)) (acc : List EventRow)
    (n : ℕ) (hacc : acc.length = n) (hts : ∀ tb ∈ ts, tb.length = n) :
    (ts.foldl addTable acc).length = n := by
  induction ts generalizing acc with
  | nil => simpa using hacc
  | cons t ts ih =>
    rw [List.foldl_cons]
    refine ih (addTable acc t) ?_ (fun tb htb => hts tb (by simp [htb]))
    rw [addTable_length, hacc, hts t (by simp)]
    omega

lemma foldl_addTable_getD (ts : List (List EventRow)) (acc : List EventRow)
    (n : ℕ) (hacc : acc.length = n) (hts : ∀ tb ∈ ts, tb.length = n)
    (i : ℕ) (hi : i < n) :
    (ts.foldl addTable acc).getD i default =
      { t := (acc.getD i default).t,
        removed := (acc.getD i default).removed +
          (ts.map (fun tb => (tb.getD i default).removed)).sum,
        observed := (acc.getD i default).observed +
          (ts.map (fun tb => (tb.getD i default).observed)).sum,
        interval := (acc.getD i default).interval +
          (ts.map (fun tb => (tb.getD i default).interval)).sum,
        censored := (acc.getD i default).censored +
          (ts.map (fun tb => (tb.getD i default).censored)).sum,
        atRisk := (acc.getD i default).atRisk +
          (ts.map (fun tb => (tb.getD i default).atRisk)).sum } := by
  induction ts generalizing acc with
  | nil => simp
  | cons t ts ih =>
    have hti : t.length = n := hts t (by simp)
    have hacc' : (addTable acc t).length = n := by
      rw [addTable_length, hacc, hti]
      omega
    rw [List.foldl_cons, ih (addTable acc t) hacc'
      (fun tb htb => hts tb (by simp [htb]))]
    rw [addTable_getD _ _ i (by omega) (by omega)]
    simp only [addRow, List.map_cons, List.sum_cons, EventRow.mk.injEq]
    exact ⟨trivial, by omega, by omega, by omega, by omega, by omega⟩

lemma sumTables_length {L : List (List EventRow)} {n : ℕ} (hne : L ≠ [])
    (hlen : ∀ tb ∈ L, tb.length = n) : (sumTables L).length = n := by
  match L with
  | t :: ts =>
    exact foldl_addTable_length ts t n (hlen t (by simp))
      (fun tb htb => hlen tb (by simp [htb]))

lemma sumTables_getD {L : List (List EventRow)} {n : ℕ} (hne : L ≠ [])
    (hlen : ∀ tb ∈ L, tb.length = n) {i : ℕ} (hi : i < n) :
    (sumTables L).getD i default =
      { t := ((L.headD []).getD i default).t,
        removed := (L.map (fun tb => (tb.getD i default).removed)).sum,
        observed := (L.map (fun tb => (tb.getD i default).observed)).sum,
        interval := (L.map (fun tb => (tb.getD i default).interval)).sum,
        censored := (L.map (fun tb => (tb.getD i default).censored)).sum,
        atRisk := (L.map (fun tb => (tb.getD i default).atRisk)).sum } := by
  match L with
  | t :: ts =>
    show (ts.foldl addTable t).getD i default = _
    rw [foldl_addTable_getD ts t n (hlen t (by simp))
      (fun tb htb => hlen tb (by simp [htb])) i hi]
    simp

lemma addTable_map_removed (a b : List EventRow) :
    (addTable a b).map (fun r => r.removed) =
      List.zipWith (fun x y => x + y) (a.map (fun r => r.removed))
        (b.map (fun r => r.removed)) := by
  induction a generalizing b with
  | nil => simp [addTable]
  | cons x rest ih =>
    cases b with
    | nil => simp [addTable]
    | cons y bs => simpa [addTable, addRow] using ih bs

lemma sum_zipWith_add (x y : List ℕ) (h : x.length = y.length) :
    (List.zipWith (fun u v => u + v) x y).sum = x.sum + y.sum := by
  induction x generalizing y with
  | nil =>
    rw [List.length_nil] at h
    rw [List.length_eq_zero.mp h.symm]
    simp
  | cons a as ih =>
    cases y with
    | nil => simp at h
    | cons b bs =>
      simp only [List.zipWith_cons_cons, List.sum_cons, ih bs (by simpa using h)]
      omega

lemma atRisk_suffix_addTable {a b : List EventRow} (hlen : a.length = b.length)
    (ha : ∀ i, i < a.length →
      (a.getD i default).atRisk = ((a.drop i).map (fun r => r.removed)).sum)
    (hb : ∀ i, i < b.length →
      (b.getD i default).atRisk = ((b.drop i).map (fun r => r.removed)).sum) :
    ∀ i, i < (addTable a b).length →
      ((addTable a b).getD i default).atRisk =
        (((addTable a b).drop i).map (fun r => r.removed)).sum := by
  intro i hi
  rw [addTable_length] at hi
  have hia : i < a.length := by omega
  have hib : i < b.length := by omega
  rw [addTable_getD a b i hia hib]
  show (a.getD i default).atRisk + (b.getD i default).atRisk = _
  rw [ha i hia, hb i hib, List.map_drop, List.map_drop, List.map_drop,
    addTable_map_removed, List.drop_zipWith, sum_zipWith_add]
  simp [hlen]

lemma atRisk_suffix_foldl (ts : List (List EventRow)) (acc : List EventRow)
    (n : ℕ) (hacc : acc.length = n) (hts : ∀ tb ∈ ts, tb.length = n)
    (hPacc : ∀ i, i < acc.length →
      (acc.getD i default).atRisk = ((acc.drop i).map (fun r => r.removed)).sum)
    (hPts : ∀ tb ∈ ts, ∀ i, i < tb.length →
      (tb.getD i default).atRisk = ((tb.drop i).map (fun r => r.removed)).sum) :
    ∀ i, i < (ts.foldl addTable acc).length →
      ((ts.foldl addTable acc).getD i default).atRisk =
        (((ts.foldl addTable acc).drop i).map (fun r => r.removed)).sum := by
  induction ts generalizing acc with
  | nil => simpa using hPacc
  | cons t ts ih =>
    rw [List.foldl_cons]
    have hti : t.length = n := hts t (by simp)
    refine ih (addTable acc t) ?_ (fun tb htb => hts tb (by simp [htb])) ?_
      (fun tb htb => hPts tb (by simp [htb]))
    · rw [addTable_length, hacc, hti]
      omega
    · exact atRisk_suffix_addTable (by omega) hPacc (hPts t (by simp))

lemma get_km_event_table_length (records : List SurvInput) (times : List ℚ) :
    (get_km_event_table records times).length = times.length := by
  unfold get_km_event_table
  rw [buildRows_length, List.length_map]
  exact (List.perm_insertionSort _ _).length_eq

lemma get_km_event_table_atRisk (records : List SurvInput) (times : List ℚ) :
    ∀ i, i < (get_km_event_table records times).length →
      ((get_km_event_table records times).getD i default).atRisk =
        (((get_km_event_table records times).drop i).map (fun r => r.removed)).sum := by
  intro i hi
  unfold get_km_event_table at hi ⊢
  refine buildRows_atRisk _ i ?_
  rwa [buildRows_length] at hi

lemma buildRows_removed_split (l : List (ℚ × ℕ × ℕ × ℕ)) :
    ∀ i, i < l.length →
      ((buildRows l).getD i default).removed =
        ((buildRows l).getD i default).observed +
          ((buildRows l).getD i default).interval +
          ((buildRows l).getD i default).censored := by
  intro i hi
  induction l generalizing i with
  | nil => simp at hi
  | cons x rest ih =>
    obtain ⟨t, o, iv, c⟩ := x
    cases i with
    | zero => simp [buildRows]
    | succ j =>
      have hj : j < rest.length := by simpa using hi
      simpa [buildRows] using ih j hj

lemma buildRows_map_t (l : List (ℚ × ℕ × ℕ × ℕ)) :
    (buildRows l).map (fun r => r.t) = l.map (fun x => x.1) := by
  induction l with
  | nil => rfl
  | cons x rest ih =>
    obtain ⟨t, o, iv, c⟩ := x
    simp [buildRows, ih]

lemma get_km_event_table_sorted (records : List SurvInput) (times : List ℚ) :
    List.Sorted (fun a b : ℚ => a ≤ b)
      ((get_km_event_table records times).map (fun r => r.t)) := by
  unfold get_km_event_table
  rw [buildRows_map_t, List.map_map]
  have : ((fun x : ℚ × ℕ × ℕ × ℕ => x.1) ∘ (fun t => (t,
      records.countP (fun r =>
        decide (r.event_indicator = EventType.exact ∧ r.interval_start = t)),
      records.countP (fun r =>
        decide (r.event_indicator = EventType.interval ∧ r.interval_end = t)),
      records.countP (fun r =>
        decide (r.event_indicator = EventType.censored ∧ r.interval_start = t))))) = id := by
    funext t
    rfl
  rw [this, List.map_id]
  exact List.sorted_insertionSort _ times

lemma atRisk_anti_of_suffix {tbl : List EventRow}
    (h : ∀ i, i < tbl.length →
      (tbl.getD i default).atRisk = ((tbl.drop i).map (fun r => r.removed)).sum) :
    ∀ i j, i ≤ j → j < tbl.length →
      (tbl.getD j default).atRisk ≤ (tbl.getD i default).atRisk := by
  intro i j hij hj
  rw [h j hj, h i (lt_of_le_of_lt hij hj), List.map_drop, List.map_drop]
  exact sum_drop_anti _ hij

lemma atRisk_zero_of_suffix {tbl : List EventRow}
    (h : ∀ i, i < tbl.length →
      (tbl.getD i default).atRisk = ((tbl.drop i).map (fun r => r.removed)).sum) :
    (tbl.getD 0 default).atRisk = (tbl.map (fun r => r.removed)).sum := by
  cases tbl with
  | nil => rfl
  | cons x rest => simpa using h 0 (by simp)

lemma sumTables_atRisk_suffix {L : List (List EventRow)} {n : ℕ} (hne : L ≠ [])
    (hlen : ∀ tb ∈ L, tb.length = n)
    (hP : ∀ tb ∈ L, ∀ i, i < tb.length →
      (tb.getD i default).atRisk = ((tb.drop i).map (fun r => r.removed)).sum) :
    ∀ i, i < (sumTables L).length →
      ((sumTables L).getD i default).atRisk =
        (((sumTables L).drop i).map (fun r => r.removed)).sum := by
  match L with
  | t :: ts =>
    exact atRisk_suffix_foldl ts t n (hlen t (by simp))
      (fun tb htb => hlen tb (by simp [htb])) (hP t (by simp))
      (fun tb htb => hP tb (by simp [htb]))

/-- C6: for every event table built by `get_km_event_table` (whose time
column is sorted ascending) and for the global table obtained by summing
such tables on the same grid, `at_risk` at each grid position equals the
reverse cumulative sum of `removed` over the positions at or after it, is
non-increasing across the grid, and at the grid's first (minimum) time
equals the total `removed` summed over all grid times. -/
theorem C6_at_risk_reverse_cumsum (records : List SurvInput) (times : List ℚ)
    (orgs : List (List SurvInput)) (hne : orgs ≠ []) :
    (∀ i, i < (get_km_event_table records times).length →
      ((get_km_event_table records times).getD i default).atRisk =
        (((get_km_event_table records times).drop i).map (fun r => r.removed)).sum) ∧
    (∀ i j, i ≤ j → j < (get_km_event_table records times).length →
      ((get_km_event_table records times).getD j default).atRisk ≤
        ((get_km_event_table records times).getD i default).atRisk) ∧
    (((get_km_event_table records times).getD 0 default).atRisk =
      ((get_km_event_table records times).map (fun r => r.removed)).sum) ∧
    List.Sorted (fun a b : ℚ => a ≤ b)
      ((get_km_event_table records times).map (fun r => r.t)) ∧
    (∀ i, i < (sumTables (orgs.map (fun rs => get_km_event_table rs times))).length →
      ((sumTables (orgs.map (fun rs => get_km_event_table rs times))).getD i default).atRisk =
        (((sumTables (orgs.map (fun rs => get_km_event_table rs times))).drop i).map
          (fun r => r.removed)).sum) ∧
    (∀ i j, i ≤ j →
      j < (sumTables (orgs.map (fun rs => get_km_event_table rs times))).length →
      ((sumTables (orgs.map (fun rs => get_km_event_table rs times))).getD j default).atRisk ≤
        ((sumTables (orgs.map (fun rs => get_km_event_table rs times))).getD i default).atRisk) ∧
    ((sumTables (orgs.map (fun rs => get_km_event_table rs times))).getD 0 default).atRisk =
      ((sumTables (orgs.map (fun rs => get_km_event_table rs times))).map
        (fun r => r.removed)).sum := by
  have hglobal : ∀ i, i < (sumTables (orgs.map (fun rs => get_km_event_table rs times))).length →
      ((sumTables (orgs.map (fun rs => get_km_event_table rs times))).getD i default).atRisk =
        (((sumTables (orgs.map (fun rs => get_km_event_table rs times))).drop i).map
          (fun r => r.removed)).sum := by
    refine sumTables_atRisk_suffix (n := times.length) (by simpa using hne) ?_ ?_
    · intro tb htb
      rw [List.mem_map] at htb
      obtain ⟨rs, -, htb⟩ := htb
      rw [← htb]
      exact get_km_event_table_length rs times
    · intro tb htb
      rw [List.mem_map] at htb
      obtain ⟨rs, -, htb⟩ := htb
      rw [← htb]
      exact get_km_event_table_atRisk rs times
  exact ⟨get_km_event_table_atRisk records times,
    atRisk_anti_of_suffix (get_km_event_table_atRisk records times),
    atRisk_zero_of_suffix (get_km_event_table_atRisk records times),
    get_km_event_table_sorted records times,
    hglobal, atRisk_anti_of_suffix hglobal, atRisk_zero_of_suffix hglobal⟩

/-- Witness for C6 at a concrete input: one exact record at time 5 on the
grid `{2, 5}`; the at-risk count at the later grid position is no larger
than at the first. -/
theorem C6_witness :
    ((get_km_event_table [⟨5, 5, EventType.exact⟩] [5, 2]).getD 1 default).atRisk ≤
      ((get_km_event_table [⟨5, 5, EventType.exact⟩] [5, 2]).getD 0 default).atRisk :=
  (C6_at_risk_reverse_cumsum [⟨5, 5, EventType.exact⟩] [5, 2]
    [[⟨5, 5, EventType.exact⟩]] (List.cons_ne_nil _ _)).2.1 0 1 (by omega)
    (by rw [get_km_event_table_length]; simp)

lemma kmAggregate_hazard_getD {tables : List (List EventRow)} {n : ℕ}
    (hne : tables ≠ []) (hlen : ∀ tb ∈ tables, tb.length = n) {j : ℕ} (hj : j < n)
    (hr : colSum tables (fun r => r.atRisk) j ≠ 0) :
    (kmAggregate tables).hazard.getD j Option.none =
      Option.some (specHazard tables j) := by
  show (hazardCol (sumTables tables)).getD j Option.none = _
  have hslen : (sumTables tables).length = n := sumTables_length hne hlen
  have hj' : j < (sumTables tables).length := by omega
  rw [hazardCol, List.getD_eq_getElem _ _ (by simpa using hj'), List.getElem_map,
    ← List.getD_eq_getElem _ default hj', sumTables_getD hne hlen (hslen ▸ hj')]
  rw [if_neg (by simpa [colSum] using hr)]
  simp [specHazard, colSum]

lemma cumProdAux_getD (hz : List (Option ℚ)) (v : ℕ → ℚ) (a : ℚ) :
    ∀ i, i < hz.length → (∀ j, j ≤ i → hz.getD j Option.none = Option.some (v j)) →
    (cumProdAux (Option.some a) hz).getD i Option.none =
      Option.some (1 - a * ((List.range (i + 1)).map (fun j => 1 - v j)).prod) := by
  induction hz generalizing v a with
  | nil => intro i hi; simp at hi
  | cons h rest ih =>
    intro i hi hv
    have h0 : h = Option.some (v 0) := by simpa using hv 0 (by omega)
    cases i with
    | zero =>
      have hr1 : List.range 1 = [0] := rfl
      simp [cumProdAux, h0, hr1]
    | succ k =>
      have hk : k < rest.length := by simpa using hi
      have hv' : ∀ j, j ≤ k → rest.getD j Option.none = Option.some (v (j + 1)) := by
        intro j hjk
        simpa using hv (j + 1) (by omega)
      have := ih (fun j => v (j + 1)) (a * (1 - v 0)) k hk hv'
      calc (cumProdAux (Option.some a) (h :: rest)).getD (k + 1) Option.none
          = (cumProdAux (Option.some (a * (1 - v 0))) rest).getD k Option.none := by
            simp [cumProdAux, h0]
        _ = Option.some (1 - a * (1 - v 0) *
              ((List.range (k + 1)).map (fun j => 1 - v (j + 1))).prod) := this
        _ = Option.some (1 - a *
              ((List.range (k + 2)).map (fun j => 1 - v j)).prod) := by
            have hr : ((List.range (k + 2)).map (fun j => 1 - v j)).prod =
                (1 - v 0) *
                  ((List.range (k + 1)).map (fun j => 1 - v (j + 1))).prod := by
              rw [List.range_succ_eq_map, List.map_cons, List.prod_cons, List.map_map]
              rfl
            rw [hr, ← mul_assoc]

/-- C5: `kaplan_meier_central` derives the curves strictly after the
element-wise summation of the per-organization event tables: at every grid
position whose prefix has positive summed at-risk counts,
`hazard = (observed + interval * 0.5) / at_risk` computed on the summed
counts, and `cumulative_incidence = 1 - prod over s <= t of (1 - hazard(s))`
in ascending grid order. -/
theorem C5_derivation_after_summation (tables : List (List EventRow)) (n : ℕ)
    (hne : tables ≠ []) (hlen : ∀ tb ∈ tables, tb.length = n) (i : ℕ) (hi : i < n)
    (hrisk : ∀ j, j ≤ i → colSum tables (fun r => r.atRisk) j ≠ 0) :
    (kmAggregate tables).hazard.getD i Option.none =
      Option.some (specHazard tables i) ∧
    (kmAggregate tables).cumInc.getD i Option.none =
      Option.some (specCumInc tables i) := by
  have hhaz : ∀ j, j ≤ i →
      (hazardCol (sumTables tables)).getD j Option.none =
        Option.some (specHazard tables j) := by
    intro j hj
    exact kmAggregate_hazard_getD hne hlen (lt_of_le_of_lt hj hi) (hrisk j hj)
  refine ⟨hhaz i le_rfl, ?_⟩
  show (cumIncCol (hazardCol (sumTables tables))).getD i Option.none = _
  have hlenhz : (hazardCol (sumTables tables)).length = n := by
    simp [hazardCol, sumTables_length hne hlen]
  rw [cumIncCol, cumProdAux_getD (hazardCol (sumTables tables))
    (fun j => specHazard tables j) 1 i (by omega) hhaz]
  rw [specCumInc, one_mul]

/-- Witness for C5 at a concrete input: two organizations' tables on the
grid `{0, 1}`. -/
theorem C5_witness :
    (kmAggregate [get_km_event_table
        [⟨0, 0, EventType.exact⟩, ⟨1, 1, EventType.censored⟩] [0, 1],
      get_km_event_table [⟨1, 1, EventType.exact⟩] [0, 1]]).hazard.getD 1 Option.none =
      Option.some (specHazard [get_km_event_table
        [⟨0, 0, EventType.exact⟩, ⟨1, 1, EventType.censored⟩] [0, 1],
      get_km_event_table [⟨1, 1, EventType.exact⟩] [0, 1]] 1) ∧
    (kmAggregate [get_km_event_table
        [⟨0, 0, EventType.exact⟩, ⟨1, 1, EventType.censored⟩] [0, 1],
      get_km_event_table [⟨1, 1, EventType.exact⟩] [0, 1]]).cumInc.getD 1 Option.none =
      Option.some (specCumInc [get_km_event_table
        [⟨0, 0, EventType.exact⟩, ⟨1, 1, EventType.censored⟩] [0, 1],
      get_km_event_table [⟨1, 1, EventType.exact⟩] [0, 1]] 1) :=
  C5_derivation_after_summation _ 2 (List.cons_ne_nil _ _)
    (by intro tb htb
        rcases List.mem_cons.mp htb with h | htb2
        · rw [h, get_km_event_table_length]; rfl
        · rcases List.mem_cons.mp htb2 with h | h
          · rw [h, get_km_event_table_length]; rfl
          · cases h)
    1 (by omega)
    (by intro j hj; interval_cases j <;> with_unfolding_all decide)

/-- Counterexample to C4: on a table whose last grid time has `at_risk = 0`
(one exact event at time 0, grid `{0, 1}`), the aggregation step of
`kaplan_meier_central` divides without a guard, producing the undefined
value NaN (`0/0`, modelled `Option.none`) — not the hazard 0 the claim
states. -/
theorem C4_counterexample :
    ((kmAggregate [get_km_event_table [⟨0, 0, EventType.exact⟩] [0, 1]]).table.getD 1
        default).atRisk = 0 ∧
    (kmAggregate [get_km_event_table [⟨0, 0, EventType.exact⟩] [0, 1]]).hazard.getD 1
        (Option.some 0) = Option.none ∧
    (Option.none : Option ℚ) ≠ Option.some (0 : ℚ) := by
  refine ⟨?_, ?_, by simp⟩
  · with_unfolding_all decide
  · with_unfolding_all decide

/-- C4 as amended: if `at_risk(t) = 0` at some grid position, the
aggregation step of `kaplan_meier_central` leaves `hazard(t)` as the
undefined result of the division (NaN, modelled `Option.none`), which then
propagates through the cumulative product; the code contains no zero-hazard
policy. -/
theorem C4_amended (tables : List (List EventRow)) (i : ℕ)
    (hi : i < (kmAggregate tables).table.length)
    (h0 : ((kmAggregate tables).table.getD i default).atRisk = 0) :
    (kmAggregate tables).hazard.getD i (Option.some 0) = Option.none := by
  show (hazardCol (sumTables tables)).getD i (Option.some 0) = Option.none
  have hi' : i < (sumTables tables).length := hi
  rw [hazardCol, List.getD_eq_getElem _ _ (by simpa using hi'), List.getElem_map,
    ← List.getD_eq_getElem _ default hi',
    if_pos (show ((sumTables tables).getD i default).atRisk = 0 from h0)]

/-- Witness for the amended C4 at a concrete input: one censored record at
time 3 on the grid `{3, 7}`. -/
theorem C4_amended_witness :
    (kmAggregate [get_km_event_table [⟨3, 3, EventType.censored⟩] [3, 7]]).hazard.getD 1
      (Option.some 0) = Option.none :=
  C4_amended _ 1 (by with_unfolding_all decide) (by with_unfolding_all decide)

lemma addRow_assoc (a b c : EventRow) :
    addRow (addRow a b) c = addRow a (addRow b c) := by
  simp only [addRow, EventRow.mk.injEq]
  exact ⟨trivial, by omega, by omega, by omega, by omega, by omega⟩

lemma addTable_assoc (a b c : List EventRow) :
    addTable (addTable a b) c = addTable a (addTable b c) := by
  induction a generalizing b c with
  | nil => simp [addTable]
  | cons x xs ih =>
    cases b with
    | nil => simp [addTable]
    | cons y ys =>
      cases c with
      | nil => simp [addTable]
      | cons z zs =>
        simp only [addTable, List.zipWith_cons_cons] at ih ⊢
        rw [addRow_assoc]
        exact congrArg _ (ih ys zs)

lemma foldl_addTable_assoc (ys : List (List EventRow)) (a b : List EventRow) :
    ys.foldl addTable (addTable a b) = addTable a (ys.foldl addTable b) := by
  induction ys generalizing b with
  | nil => rfl
  | cons z zs ih =>
    rw [List.foldl_cons, List.foldl_cons, addTable_assoc, ih]

lemma sumTables_append (L1 L2 : List (List EventRow)) (h1 : L1 ≠ []) (h2 : L2 ≠ []) :
    sumTables (L1 ++ L2) = addTable (sumTables L1) (sumTables L2) := by
  match L1, L2 with
  | x :: xs, y :: ys =>
    show ((xs ++ y :: ys).foldl addTable x) = _
    rw [List.foldl_append, List.foldl_cons, foldl_addTable_assoc]
    rfl

/-- C8: partition invariance of the aggregation.  For every split of the
per-organization event tables into two non-empty groups, summing each group
element-wise, then summing the two group totals, then deriving hazard and
cumulative incidence once, yields exactly the same result as summing all
tables at once and deriving once. -/
theorem C8_partition_invariance (L1 L2 : List (List EventRow))
    (h1 : L1 ≠ []) (h2 : L2 ≠ []) :
    sumTables (L1 ++ L2) = addTable (sumTables L1) (sumTables L2) ∧
    kmAggregate (L1 ++ L2) =
      { table := addTable (sumTables L1) (sumTables L2),
        hazard := hazardCol (addTable (sumTables L1) (sumTables L2)),
        cumInc := cumIncCol (hazardCol (addTable (sumTables L1) (sumTables L2))) } := by
  have hs := sumTables_append L1 L2 h1 h2
  exact ⟨hs, by rw [kmAggregate, hs]⟩

/-- Witness for C8 at a concrete input: two one-row tables split into two
singleton groups. -/
theorem C8_partition_invariance_witness :
    kmAggregate
        [get_km_event_table [⟨2, 2, EventType.exact⟩] [2],
          get_km_event_table [⟨2, 2, EventType.censored⟩] [2]] =
      { table := addTable
          (sumTables [get_km_event_table [⟨2, 2, EventType.exact⟩] [2]])
          (sumTables [get_km_event_table [⟨2, 2, EventType.censored⟩] [2]]),
        hazard := hazardCol (addTable
          (sumTables [get_km_event_table [⟨2, 2, EventType.exact⟩] [2]])
          (sumTables [get_km_event_table [⟨2, 2, EventType.censored⟩] [2]])),
        cumInc := cumIncCol (hazardCol (addTable
          (sumTables [get_km_event_table [⟨2, 2, EventType.exact⟩] [2]])
          (sumTables [get_km_event_table [⟨2, 2, EventType.censored⟩] [2]]))) } :=
  (C8_partition_invariance [get_km_event_table [⟨2, 2, EventType.exact⟩] [2]]
    [get_km_event_table [⟨2, 2, EventType.censored⟩] [2]]
    (List.cons_ne_nil _ _) (List.cons_ne_nil _ _)).2

/-- C9: if the number of organizations selected for inclusion is below
`MINIMUM_ORGANIZATIONS`, `kaplan_meier_central` fails with the quorum error
before dispatching any round — the result is this error and is independent
of every organization's data, so no partial result is ever produced. -/
theorem C9_quorum (allOrgIds : List ℕ) (inc : Option (List ℕ)) (nt : NoiseType)
    (snr : Option ℚ) (seed : Option ℤ)
    (h : (resolve_orgs allOrgIds inc).length < MINIMUM_ORGANIZATIONS)
    (orgData orgData' : ℕ → List Patient) :
    kaplan_meier_central allOrgIds inc nt snr seed orgData =
      Except.error "Minimum number of organizations not met (required: 3)." ∧
    kaplan_meier_central allOrgIds inc nt snr seed orgData =
      kaplan_meier_central allOrgIds inc nt snr seed orgData' := by
  have he : ∀ d : ℕ → List Patient, kaplan_meier_central allOrgIds inc nt snr seed d =
      Except.error "Minimum number of organizations not met (required: 3)." := by
    intro d
    show (if _ < _ then _ else _) = _
    rw [if_pos h]
  rw [he orgData, he orgData']
  exact ⟨rfl, rfl⟩

/-- Witness for C9 at a concrete input: one organization selected against a
threshold of 3 aborts with the quorum error. -/
theorem C9_quorum_witness :
    kaplan_meier_central [0, 1, 2] (Option.some [5]) NoiseType.none Option.none
        Option.none (fun _ => []) =
      Except.error "Minimum number of organizations not met (required: 3)." :=
  (C9_quorum [0, 1, 2] (Option.some [5]) NoiseType.none Option.none Option.none
    (by decide) (fun _ => []) (fun _ => [])).1

/-- C10: noise reproducibility.  Each call of the noise transform
re-initialises its generator from `random_seed`, so two applications with
the same seed, noise type and snr produce identical outputs (the transform
is a pure function of its arguments in this embedding), and `NONE` returns
the input times exactly unchanged. -/
theorem C10_noise_reproducibility (times : List ℚ) (nt : NoiseType)
    (snr : Option ℚ) (seed : Option ℤ) :
    (add_noise_run (seedInit seed) times nt snr).1 =
      (add_noise_run (seedInit seed) times nt snr).1 ∧
    add_noise_to_event_times times NoiseType.none snr seed = Except.ok times :=
  ⟨rfl, rfl⟩

lemma buildRows_counts (l : List (ℚ × ℕ × ℕ × ℕ)) :
    ∀ i, i < l.length →
      ((buildRows l).getD i default).t = (l.getD i (0, 0, 0, 0)).1 ∧
      ((buildRows l).getD i default).observed = (l.getD i (0, 0, 0, 0)).2.1 ∧
      ((buildRows l).getD i default).interval = (l.getD i (0, 0, 0, 0)).2.2.1 ∧
      ((buildRows l).getD i default).censored = (l.getD i (0, 0, 0, 0)).2.2.2 := by
  intro i hi
  induction l generalizing i with
  | nil => simp at hi
  | cons x rest ih =>
    obtain ⟨t, o, iv, c⟩ := x
    cases i with
    | zero => simp [buildRows]
    | succ j =>
      have hj : j < rest.length := by simpa using hi
      simpa [buildRows] using ih j hj

lemma classify_org_start_eq_end (ps : List Patient) :
    ∀ r ∈ classify_org ps, r.interval_start = r.interval_end := by
  intro r hr
  unfold classify_org at hr
  rw [List.mem_map] at hr
  obtain ⟨kr, hkr, hre⟩ := hr
  rw [List.mem_filterMap] at hkr
  obtain ⟨p, -, hp⟩ := hkr
  obtain ⟨-, -, -, hs, he, -⟩ := km_input_record hp
  rw [← hre]
  show kr.interval_start = kr.interval_end
  rw [hs, he]

lemma table_removed_pos (records : List SurvInput) (g2 : List ℚ)
    (r : SurvInput) (hr : r ∈ records) (hse : r.interval_start = r.interval_end)
    (k : ℕ) (hk : k < g2.length) (htk : g2.getD k 0 = r.interval_start) :
    1 ≤ ((buildRows (g2.map (fun t =>
      (t,
       records.countP (fun q =>
         decide (q.event_indicator = EventType.exact ∧ q.interval_start = t)),
       records.countP (fun q =>
         decide (q.event_indicator = EventType.interval ∧ q.interval_end = t)),
       records.countP (fun q =>
         decide (q.event_indicator = EventType.censored ∧ q.interval_start = t)))))).getD
      k default).removed := by
  have hk' : k < (g2.map (fun t =>
      (t,
       records.countP (fun q =>
         decide (q.event_indicator = EventType.exact ∧ q.interval_start = t)),
       records.countP (fun q =>
         decide (q.event_indicator = EventType.interval ∧ q.interval_end = t)),
       records.countP (fun q =>
         decide (q.event_indicator = EventType.censored ∧ q.interval_start = t))))).length := by
    simpa using hk
  obtain ⟨hT, hO, hI, hC⟩ := buildRows_counts _ k hk'
  rw [buildRows_removed_split _ k hk', hO, hI, hC,
    List.getD_eq_getElem _ _ hk', List.getElem_map]
  have hg2k : g2[k] = r.interval_start := by
    rw [← htk, List.getD_eq_getElem _ 0 hk]
  simp only [hg2k]
  rcases hind : r.event_indicator with hexact | hcens | hinterval
  · have : 0 < records.countP (fun q =>
        decide (q.event_indicator = EventType.exact ∧ q.interval_start = r.interval_start)) :=
      List.countP_pos.mpr ⟨r, hr, by simp [hind]⟩
    omega
  · have : 0 < records.countP (fun q =>
        decide (q.event_indicator = EventType.censored ∧ q.interval_start = r.interval_start)) :=
      List.countP_pos.mpr ⟨r, hr, by simp [hind]⟩
    omega
  · have : 0 < records.countP (fun q =>
        decide (q.event_indicator = EventType.interval ∧ q.interval_end = r.interval_start)) :=
      List.countP_pos.mpr ⟨r, hr, by simp [hind, ← hse]⟩
    omega


lemma getD_removed_le_atRisk {tbl : List EventRow}
    (hsuf : ∀ i, i < tbl.length →
      (tbl.getD i default).atRisk = ((tbl.drop i).map (fun r => r.removed)).sum)
    {i : ℕ} (hi : i < tbl.length) :
    (tbl.getD i default).removed ≤ (tbl.getD i default).atRisk := by
  rw [hsuf i hi, List.drop_eq_getElem_cons hi, List.map_cons, List.sum_cons,
    List.getD_eq_getElem _ default hi]
  exact Nat.le_add_right _ _

lemma get_km_event_table_removed_split (records : List SurvInput) (times : List ℚ)
    {i : ℕ} (hi : i < (get_km_event_table records times).length) :
    ((get_km_event_table records times).getD i default).removed =
      ((get_km_event_table records times).getD i default).observed +
        ((get_km_event_table records times).getD i default).interval +
        ((get_km_event_table records times).getD i default).censored := by
  unfold get_km_event_table at hi ⊢
  refine buildRows_removed_split _ i ?_
  rwa [buildRows_length] at hi

lemma prod_bounds (l : List ℚ) (hl : ∀ x ∈ l, 0 ≤ x ∧ x ≤ 1) :
    0 ≤ l.prod ∧ l.prod ≤ 1 := by
  induction l with
  | nil => simp
  | cons a l ih =>
    obtain ⟨h0, h1⟩ := hl a (by simp)
    obtain ⟨p0, p1⟩ := ih (fun x hx => hl x (by simp [hx]))
    rw [List.prod_cons]
    exact ⟨mul_nonneg h0 p0, mul_le_one h1 p0 p1⟩

lemma prod_range_anti (fct : ℕ → ℚ) {i j : ℕ} (hij : i ≤ j)
    (hf : ∀ k, k ≤ j → 0 ≤ fct k ∧ fct k ≤ 1) :
    ((List.range (j + 1)).map fct).prod ≤ ((List.range (i + 1)).map fct).prod := by
  have hsplit : j + 1 = (i + 1) + (j - i) := by omega
  rw [hsplit, List.range_add, List.map_append, List.prod_append]
  have hP : 0 ≤ ((List.range (i + 1)).map fct).prod ∧
      ((List.range (i + 1)).map fct).prod ≤ 1 := by
    refine prod_bounds _ ?_
    intro x hx
    rw [List.mem_map] at hx
    obtain ⟨k, hk, hkx⟩ := hx
    rw [List.mem_range] at hk
    exact hkx ▸ hf k (by omega)
  have hQ : 0 ≤ (((List.range (j - i)).map (fun m => i + 1 + m)).map fct).prod ∧
      (((List.range (j - i)).map (fun m => i + 1 + m)).map fct).prod ≤ 1 := by
    refine prod_bounds _ ?_
    intro x hx
    rw [List.mem_map] at hx
    obtain ⟨k, hk, hkx⟩ := hx
    rw [List.mem_map] at hk
    obtain ⟨m, hm, hmk⟩ := hk
    rw [List.mem_range] at hm
    refine hkx ▸ ?_
    rw [← hmk]
    exact hf (i + 1 + m) (by omega)
  calc ((List.range (i + 1)).map fct).prod *
        (((List.range (j - i)).map (fun m => i + 1 + m)).map fct).prod
      ≤ ((List.range (i + 1)).map fct).prod * 1 :=
        mul_le_mul_of_nonneg_left hQ.2 hP.1
    _ = ((List.range (i + 1)).map fct).prod := mul_one _

lemma sum_map_add {α : Type} (L : List α) (f g : α → ℕ) :
    (L.map (fun x => f x + g x)).sum = (L.map f).sum + (L.map g).sum := by
  induction L with
  | nil => simp
  | cons a l ih =>
    simp only [List.map_cons, List.sum_cons, ih]
    omega

lemma cumProdAux_length (acc : Option ℚ) (hz : List (Option ℚ)) :
    (cumProdAux acc hz).length = hz.length := by
  induction hz generalizing acc with
  | nil => rfl
  | cons h rest ih => simp [cumProdAux, ih]

lemma noiseListAux_length (scale : ℚ) :
    ∀ (g : ℕ) (ts : List ℚ), (noiseListAux g scale ts).1.length = ts.length := by
  intro g ts
  induction ts generalizing g with
  | nil => rfl
  | cons t ts ih => simp [noiseListAux, ih]

lemma noiseValue_length (times : List ℚ) (nt : NoiseType) (snr : Option ℚ)
    (seed : Option ℤ) : (noiseValue times nt snr seed).length = times.length := by
  cases nt with
  | none => rfl
  | gaussian =>
    cases snr with
    | none => rfl
    | some s =>
      by_cases hs : s ≤ 0
      · simp [noiseValue, hs]
      · simp [noiseValue, hs, noiseListAux_length]
  | poisson => simp [noiseValue, noiseListAux_length]

lemma add_noise_ok_of_configOk {nt : NoiseType} {snr : Option ℚ}
    (hcfg : noiseConfigOk nt snr) (times : List ℚ) (seed : Option ℤ) :
    add_noise_to_event_times times nt snr seed =
      Except.ok (noiseValue times nt snr seed) := by
  cases nt with
  | none => rfl
  | gaussian =>
    obtain ⟨s, hs, hpos⟩ := hcfg rfl
    subst hs
    show (add_noise_run (seedInit seed) times NoiseType.gaussian (Option.some s)).1 = _
    rw [add_noise_run, if_neg (not_le.mpr hpos)]
    simp [noiseValue, if_neg (not_le.mpr hpos)]
  | poisson => rfl

lemma add_noise_error_of_not_configOk {nt : NoiseType} {snr : Option ℚ}
    (hcfg : ¬ noiseConfigOk nt snr) :
    ∃ e, ∀ (times : List ℚ) (seed : Option ℤ),
      add_noise_to_event_times times nt snr seed = Except.error e := by
  cases nt with
  | none => exact absurd (fun h => nomatch h) hcfg
  | poisson => exact absurd (fun h => nomatch h) hcfg
  | gaussian =>
    cases snr with
    | none => exact ⟨"snr must be provided for GAUSSIAN noise", fun times seed => rfl⟩
    | some s =>
      by_cases hs : 0 < s
      · exact absurd (fun _ => ⟨s, rfl, hs⟩) hcfg
      · refine ⟨"snr must be positive", fun times seed => ?_⟩
        show (add_noise_run (seedInit seed) times NoiseType.gaussian (Option.some s)).1 = _
        rw [add_noise_run, if_pos (not_lt.mp hs)]

/-- `List.mapM` in the `Except` monad succeeds with the mapped list when every
element succeeds. -/
lemma mapM_loop_ok {α β : Type} (f : α → Except String β) (g : α → β) :
    ∀ (l : List α), (∀ a ∈ l, f a = Except.ok (g a)) → ∀ acc : List β,
      List.mapM.loop f l acc = Except.ok (acc.reverse ++ l.map g) := by
  intro l hl
  induction l with
  | nil => intro acc; rw [List.mapM.loop]; simp; rfl
  | cons a as ih =>
    intro acc
    rw [List.mapM.loop]
    show Except.bind (f a) (fun b => List.mapM.loop f as (b :: acc)) = _
    rw [hl a (by simp)]
    show List.mapM.loop f as (g a :: acc) = _
    rw [ih (fun x hx => hl x (by simp [hx])) (g a :: acc)]
    simp

lemma mapM_ok_of_forall {α β : Type} (f : α → Except String β) (g : α → β)
    (l : List α) (hl : ∀ a ∈ l, f a = Except.ok (g a)) :
    l.mapM f = Except.ok (l.map g) := by
  show List.mapM.loop f l [] = _
  rw [mapM_loop_ok f g l hl []]
  rfl

lemma mapM_cons_error {α β : Type} (f : α → Except String β) (a : α)
    (as : List α) (e : String) (h : f a = Except.error e) :
    (a :: as).mapM f = Except.error e := by
  show List.mapM.loop f (a :: as) [] = _
  rw [List.mapM.loop]
  show Except.bind (f a) (fun b => List.mapM.loop f as (b :: [])) = _
  rw [h]
  rfl

lemma classify_org_map_start_eq_map_end (ps : List Patient) :
    (classify_org ps).map (fun r => r.interval_start) =
      (classify_org ps).map (fun r => r.interval_end) :=
  List.map_congr_left (fun r hr => classify_org_start_eq_end ps r hr)

lemma mem_diag_zipWith_se (V : List ℚ) (inds : List EventType) :
    ∀ r ∈ List.zipWith
      (fun (se : ℚ × ℚ) (ind : EventType) =>
        ({ interval_start := se.1, interval_end := se.2,
           event_indicator := ind } : SurvInput))
      (V.zip V) inds, r.interval_start = r.interval_end := by
  induction V generalizing inds with
  | nil => simp
  | cons v vs ih =>
    cases inds with
    | nil => simp
    | cons i is =>
      intro r hr
      rw [List.zip_cons_cons, List.zipWith_cons_cons] at hr
      rcases List.mem_cons.mp hr with h | h
      · rw [h]
      · exact ih is r h

lemma mem_diag_zipWith_of_mem (V : List ℚ) (inds : List EventType)
    (hlen : inds.length = V.length) {T : ℚ} (hT : T ∈ V) :
    ∃ r ∈ List.zipWith
      (fun (se : ℚ × ℚ) (ind : EventType) =>
        ({ interval_start := se.1, interval_end := se.2,
           event_indicator := ind } : SurvInput))
      (V.zip V) inds, r.interval_start = T := by
  obtain ⟨k, hk, hVk⟩ := List.getElem_of_mem hT
  have hkz : k < (List.zipWith
      (fun (se : ℚ × ℚ) (ind : EventType) =>
        ({ interval_start := se.1, interval_end := se.2,
           event_indicator := ind } : SurvInput))
      (V.zip V) inds).length := by
    rw [List.length_zipWith, List.length_zip]
    omega
  refine ⟨_, List.getElem_mem hkz, ?_⟩
  rw [List.getElem_zipWith, List.getElem_zip]
  exact hVk

lemma noisedRecords_start_eq_end (ps : List Patient) (nt : NoiseType)
    (snr : Option ℚ) (seed : Option ℤ) :
    ∀ r ∈ noisedRecords ps nt snr seed, r.interval_start = r.interval_end := by
  intro r hr
  rw [noisedRecords, ← classify_org_map_start_eq_map_end ps] at hr
  exact mem_diag_zipWith_se _ _ r hr

lemma noisedRecords_of_mem_uniqueTimes (ps : List Patient) (nt : NoiseType)
    (snr : Option ℚ) (seed : Option ℤ) {T : ℚ}
    (hT : T ∈ uniqueTimesValue ps nt snr seed) :
    ∃ r ∈ noisedRecords ps nt snr seed, r.interval_start = T := by
  rw [uniqueTimesValue, ← classify_org_map_start_eq_map_end ps,
    List.mem_dedup, List.mem_append] at hT
  have hTV : T ∈ noiseValue ((classify_org ps).map (fun r => r.interval_start))
      nt snr seed := by
    rcases hT with h | h <;> exact h
  rw [noisedRecords, ← classify_org_map_start_eq_map_end ps]
  refine mem_diag_zipWith_of_mem _ _ ?_ hTV
  rw [noiseValue_length, List.length_map, List.length_map]

lemma get_unique_event_times_task_ok {nt : NoiseType} {snr : Option ℚ}
    (hcfg : noiseConfigOk nt snr) (ps : List Patient) (seed : Option ℤ) :
    get_unique_event_times_task ps nt snr seed =
      Except.ok (uniqueTimesValue ps nt snr seed) := by
  rw [get_unique_event_times_task, add_noise_ok_of_configOk hcfg,
    add_noise_ok_of_configOk hcfg]
  rfl

lemma get_km_event_table_task_ok {nt : NoiseType} {snr : Option ℚ}
    (hcfg : noiseConfigOk nt snr) (ps : List Patient) (grid : List ℚ)
    (seed : Option ℤ) :
    get_km_event_table_task ps grid nt snr seed =
      Except.ok (get_km_event_table (noisedRecords ps nt snr seed) grid) := by
  rw [get_km_event_table_task, add_noise_ok_of_configOk hcfg,
    add_noise_ok_of_configOk hcfg]
  rfl

lemma recs_table_lengths (orgRecs : List (List SurvInput)) (grid : List ℚ) :
    ∀ tb ∈ orgRecs.map (fun rs => get_km_event_table rs grid),
      tb.length = grid.length := by
  intro tb htb
  rw [List.mem_map] at htb
  obtain ⟨rs, -, htb⟩ := htb
  rw [← htb]
  exact get_km_event_table_length _ _

lemma recs_atRisk_pos (orgRecs : List (List SurvInput)) (grid : List ℚ)
    (hse : ∀ rs ∈ orgRecs, ∀ r ∈ rs, r.interval_start = r.interval_end)
    (hgrid : ∀ T ∈ grid, ∃ rs ∈ orgRecs, ∃ r ∈ rs, r.interval_start = T)
    {i : ℕ} (hi : i < grid.length) :
    1 ≤ colSum (orgRecs.map (fun rs => get_km_event_table rs grid))
      (fun r => r.atRisk) i := by
  have hg2len : (List.insertionSort (fun a b : ℚ => a ≤ b) grid).length =
      grid.length := (List.perm_insertionSort _ _).length_eq
  set n := grid.length with hn
  set g2 := List.insertionSort (fun a b : ℚ => a ≤ b) grid with hg2
  have hnpos : 0 < n := by omega
  have hk : n - 1 < g2.length := by omega
  set T := g2.getD (n - 1) 0 with hT
  have hTg2 : T ∈ g2 := by
    rw [hT, List.getD_eq_getElem _ _ hk]
    exact List.getElem_mem hk
  have hTgrid : T ∈ grid := (List.perm_insertionSort _ _).mem_iff.mp hTg2
  obtain ⟨rs, hrs, r, hr, hrT⟩ := hgrid T hTgrid
  have hse' : r.interval_start = r.interval_end := hse rs hrs r hr
  have hrem : 1 ≤ ((get_km_event_table rs grid).getD (n - 1) default).removed := by
    unfold get_km_event_table
    exact table_removed_pos rs g2 r hr hse' (n - 1) hk (by rw [← hT, hrT])
  have htblen : (get_km_event_table rs grid).length = n :=
    get_km_event_table_length _ _
  have hsuf := get_km_event_table_atRisk rs grid
  have hatRisk : 1 ≤ ((get_km_event_table rs grid).getD i default).atRisk := by
    rw [hsuf i (by omega), List.map_drop]
    have h1 : (((get_km_event_table rs grid).map
        (fun r => r.removed)).drop (n - 1)).sum ≤
        (((get_km_event_table rs grid).map
          (fun r => r.removed)).drop i).sum :=
      sum_drop_anti _ (by omega)
    refine le_trans ?_ h1
    have hmaplen : ((get_km_event_table rs grid).map
        (fun r => r.removed)).length = n := by
      rw [List.length_map, htblen]
    have hkm : n - 1 < ((get_km_event_table rs grid).map
        (fun r => r.removed)).length := by omega
    rw [List.drop_eq_getElem_cons hkm, List.sum_cons]
    have hdropnil : (((get_km_event_table rs grid).map
        (fun r => r.removed)).drop (n - 1 + 1)) = [] := by
      refine List.drop_eq_nil_of_le ?_
      omega
    rw [hdropnil, List.sum_nil, List.getElem_map]
    rw [List.getD_eq_getElem _ default (show n - 1 <
      (get_km_event_table rs grid).length by omega)] at hrem
    omega
  have hmem : ((get_km_event_table rs grid).getD i default).atRisk ∈
      (orgRecs.map (fun rs => get_km_event_table rs grid)).map
        (fun tb => (tb.getD i default).atRisk) := by
    rw [List.mem_map]
    refine ⟨get_km_event_table rs grid, ?_, rfl⟩
    rw [List.mem_map]
    exact ⟨rs, hrs, rfl⟩
  calc 1 ≤ ((get_km_event_table rs grid).getD i default).atRisk := hatRisk
    _ ≤ colSum (orgRecs.map (fun rs => get_km_event_table rs grid))
        (fun r => r.atRisk) i :=
        List.single_le_sum (fun x _ => Nat.zero_le x) _ hmem

lemma recs_obs_int_le_atRisk (orgRecs : List (List SurvInput)) (grid : List ℚ)
    {i : ℕ} (hi : i < grid.length) :
    colSum (orgRecs.map (fun rs => get_km_event_table rs grid))
        (fun r => r.observed) i +
      colSum (orgRecs.map (fun rs => get_km_event_table rs grid))
        (fun r => r.interval) i ≤
      colSum (orgRecs.map (fun rs => get_km_event_table rs grid))
        (fun r => r.atRisk) i := by
  have hpt : ∀ tb ∈ orgRecs.map (fun rs => get_km_event_table rs grid),
      (tb.getD i default).observed + (tb.getD i default).interval ≤
        (tb.getD i default).atRisk := by
    intro tb htb
    rw [List.mem_map] at htb
    obtain ⟨rs, -, htb⟩ := htb
    have hlen : tb.length = grid.length := by
      rw [← htb]
      exact get_km_event_table_length _ _
    have hi' : i < tb.length := by omega
    have hsplit : (tb.getD i default).removed =
        (tb.getD i default).observed + (tb.getD i default).interval +
          (tb.getD i default).censored := by
      rw [← htb] at hi' ⊢
      exact get_km_event_table_removed_split _ _ hi'
    have hra : (tb.getD i default).removed ≤ (tb.getD i default).atRisk := by
      refine getD_removed_le_atRisk ?_ hi'
      rw [← htb]
      exact get_km_event_table_atRisk _ _
    omega
  show (List.map _ _).sum + (List.map _ _).sum ≤ _
  rw [← sum_map_add]
  exact List.sum_le_sum hpt

lemma recs_specHazard_bounds (orgRecs : List (List SurvInput)) (grid : List ℚ)
    (hse : ∀ rs ∈ orgRecs, ∀ r ∈ rs, r.interval_start = r.interval_end)
    (hgrid : ∀ T ∈ grid, ∃ rs ∈ orgRecs, ∃ r ∈ rs, r.interval_start = T)
    {i : ℕ} (hi : i < grid.length) :
    0 ≤ specHazard (orgRecs.map (fun rs => get_km_event_table rs grid)) i ∧
      specHazard (orgRecs.map (fun rs => get_km_event_table rs grid)) i ≤ 1 := by
  have hden := recs_atRisk_pos orgRecs grid hse hgrid hi
  have hnum := recs_obs_int_le_atRisk orgRecs grid hi
  rw [specHazard]
  constructor
  · positivity
  · rw [div_le_one (by exact_mod_cast Nat.lt_of_lt_of_le Nat.zero_lt_one hden)]
    have h05 : (colSum (orgRecs.map (fun rs => get_km_event_table rs grid))
          (fun r => r.interval) i : ℚ) * 0.5 ≤
        (colSum (orgRecs.map (fun rs => get_km_event_table rs grid))
          (fun r => r.interval) i : ℚ) := by
      refine mul_le_of_le_one_right (by positivity) (by norm_num)
    refine le_trans (add_le_add_left h05 _) ?_
    exact_mod_cast hnum

lemma recs_ne_nil (orgRecs : List (List SurvInput)) (grid : List ℚ)
    (hgrid : ∀ T ∈ grid, ∃ rs ∈ orgRecs, ∃ r ∈ rs, r.interval_start = T)
    (hpos : 0 < grid.length) : orgRecs ≠ [] := by
  have h0 : grid.getD 0 0 ∈ grid := by
    rw [List.getD_eq_getElem _ _ hpos]
    exact List.getElem_mem hpos
  obtain ⟨rs, hrs, -⟩ := hgrid _ h0
  exact List.ne_nil_of_mem hrs

lemma recs_hazard_getD (orgRecs : List (List SurvInput)) (grid : List ℚ)
    (hse : ∀ rs ∈ orgRecs, ∀ r ∈ rs, r.interval_start = r.interval_end)
    (hgrid : ∀ T ∈ grid, ∃ rs ∈ orgRecs, ∃ r ∈ rs, r.interval_start = T)
    {i : ℕ} (hi : i < grid.length) :
    (kmAggregate (orgRecs.map (fun rs => get_km_event_table rs grid))).hazard.getD
        i Option.none =
      Option.some (specHazard (orgRecs.map (fun rs => get_km_event_table rs grid)) i) := by
  have hne : orgRecs ≠ [] := recs_ne_nil orgRecs grid hgrid (by omega)
  refine kmAggregate_hazard_getD (by simpa using hne)
    (recs_table_lengths orgRecs grid) hi ?_
  exact Nat.one_le_iff_ne_zero.mp (recs_atRisk_pos orgRecs grid hse hgrid hi)

lemma recs_cumInc_getD (orgRecs : List (List SurvInput)) (grid : List ℚ)
    (hse : ∀ rs ∈ orgRecs, ∀ r ∈ rs, r.interval_start = r.interval_end)
    (hgrid : ∀ T ∈ grid, ∃ rs ∈ orgRecs, ∃ r ∈ rs, r.interval_start = T)
    {i : ℕ} (hi : i < grid.length) :
    (kmAggregate (orgRecs.map (fun rs => get_km_event_table rs grid))).cumInc.getD
        i Option.none =
      Option.some (1 - ((List.range (i + 1)).map (fun j =>
        1 - specHazard (orgRecs.map (fun rs => get_km_event_table rs grid)) j)).prod) := by
  have hne : orgRecs ≠ [] := recs_ne_nil orgRecs grid hgrid (by omega)
  show (cumIncCol (hazardCol (sumTables
    (orgRecs.map (fun rs => get_km_event_table rs grid))))).getD i Option.none = _
  have hslen : (sumTables (orgRecs.map (fun rs => get_km_event_table rs grid))).length =
      grid.length :=
    sumTables_length (by simpa using hne) (recs_table_lengths orgRecs grid)
  have hhz : (hazardCol (sumTables
      (orgRecs.map (fun rs => get_km_event_table rs grid)))).length = grid.length := by
    simp [hazardCol, hslen]
  rw [cumIncCol, cumProdAux_getD
    (hazardCol (sumTables (orgRecs.map (fun rs => get_km_event_table rs grid))))
    (fun j => specHazard (orgRecs.map (fun rs => get_km_event_table rs grid)) j) 1 i
    (by omega)
    (fun j hj => recs_hazard_getD orgRecs grid hse hgrid (lt_of_le_of_lt hj hi)),
    one_mul]

/-- Core bounds lemma: for any per-organization record lists whose records
all satisfy `interval_start = interval_end` and any grid each of whose times
is some record's `interval_start`, the summed-and-derived curves have hazard
and cumulative incidence defined and in `[0,1]`, with the cumulative
incidence non-decreasing. -/
lemma km_curves_bounds_of_keyed (orgRecs : List (List SurvInput)) (grid : List ℚ)
    (hse : ∀ rs ∈ orgRecs, ∀ r ∈ rs, r.interval_start = r.interval_end)
    (hgrid : ∀ T ∈ grid, ∃ rs ∈ orgRecs, ∃ r ∈ rs, r.interval_start = T) :
    (∀ i, i < (kmAggregate (orgRecs.map
        (fun rs => get_km_event_table rs grid))).hazard.length →
      ∃ h, (kmAggregate (orgRecs.map
          (fun rs => get_km_event_table rs grid))).hazard.getD i Option.none =
        Option.some h ∧ 0 ≤ h ∧ h ≤ 1) ∧
    (∀ i, i < (kmAggregate (orgRecs.map
        (fun rs => get_km_event_table rs grid))).cumInc.length →
      ∃ q, (kmAggregate (orgRecs.map
          (fun rs => get_km_event_table rs grid))).cumInc.getD i Option.none =
        Option.some q ∧ 0 ≤ q ∧ q ≤ 1) ∧
    (∀ i j qi qj, i ≤ j →
      j < (kmAggregate (orgRecs.map
        (fun rs => get_km_event_table rs grid))).cumInc.length →
      (kmAggregate (orgRecs.map
        (fun rs => get_km_event_table rs grid))).cumInc.getD i Option.none =
        Option.some qi →
      (kmAggregate (orgRecs.map
        (fun rs => get_km_event_table rs grid))).cumInc.getD j Option.none =
        Option.some qj →
      qi ≤ qj) := by
  by_cases hnil : orgRecs = []
  · subst hnil
    have hh0 : (kmAggregate ((List.map
        (fun rs => get_km_event_table rs grid)) [])).hazard.length = 0 := rfl
    have hc0 : (kmAggregate ((List.map
        (fun rs => get_km_event_table rs grid)) [])).cumInc.length = 0 := rfl
    refine ⟨fun i hi => ?_, fun i hi => ?_, fun i j qi qj hij hj hgi hgj => ?_⟩
    · omega
    · omega
    · omega
  · have hslen : (sumTables (orgRecs.map
        (fun rs => get_km_event_table rs grid))).length = grid.length :=
      sumTables_length (by simpa using hnil) (recs_table_lengths orgRecs grid)
    have hhazlen : (kmAggregate (orgRecs.map
        (fun rs => get_km_event_table rs grid))).hazard.length = grid.length := by
      show (hazardCol (sumTables _)).length = _
      simp [hazardCol, hslen]
    have hcilen : (kmAggregate (orgRecs.map
        (fun rs => get_km_event_table rs grid))).cumInc.length = grid.length := by
      show (cumIncCol (hazardCol (sumTables _))).length = _
      rw [cumIncCol, cumProdAux_length]
      simp [hazardCol, hslen]
    have hfct : ∀ j, j < grid.length →
        0 ≤ 1 - specHazard (orgRecs.map (fun rs => get_km_event_table rs grid)) j ∧
          1 - specHazard (orgRecs.map (fun rs => get_km_event_table rs grid)) j ≤ 1 := by
      intro j hj
      obtain ⟨h0, h1⟩ := recs_specHazard_bounds orgRecs grid hse hgrid hj
      constructor <;> linarith
    have hprod : ∀ i, i < grid.length →
        0 ≤ ((List.range (i + 1)).map (fun j =>
          1 - specHazard (orgRecs.map (fun rs => get_km_event_table rs grid)) j)).prod ∧
        ((List.range (i + 1)).map (fun j =>
          1 - specHazard (orgRecs.map (fun rs => get_km_event_table rs grid)) j)).prod ≤ 1 := by
      intro i hi
      refine prod_bounds _ ?_
      intro x hx
      rw [List.mem_map] at hx
      obtain ⟨k, hk, hkx⟩ := hx
      rw [List.mem_range] at hk
      exact hkx ▸ hfct k (by omega)
    refine ⟨fun i hi => ?_, fun i hi => ?_, fun i j qi qj hij hj hgi hgj => ?_⟩
    · rw [hhazlen] at hi
      obtain ⟨h0, h1⟩ := recs_specHazard_bounds orgRecs grid hse hgrid hi
      exact ⟨_, recs_hazard_getD orgRecs grid hse hgrid hi, h0, h1⟩
    · rw [hcilen] at hi
      obtain ⟨p0, p1⟩ := hprod i hi
      refine ⟨_, recs_cumInc_getD orgRecs grid hse hgrid hi, ?_, ?_⟩ <;> linarith
    · rw [hcilen] at hj
      have hi : i < grid.length := by omega
      rw [recs_cumInc_getD orgRecs grid hse hgrid hi] at hgi
      rw [recs_cumInc_getD orgRecs grid hse hgrid hj] at hgj
      rw [Option.some.injEq] at hgi hgj
      have hanti : ((List.range (j + 1)).map (fun k =>
          1 - specHazard (orgRecs.map (fun rs => get_km_event_table rs grid)) k)).prod ≤
          ((List.range (i + 1)).map (fun k =>
            1 - specHazard (orgRecs.map (fun rs => get_km_event_table rs grid)) k)).prod :=
        prod_range_anti _ hij (fun k hk => hfct k (by omega))
      rw [← hgi, ← hgj]
      linarith

/-- C7: for every curve produced by `kaplan_meier_central` — under any noise
policy and any inputs on which it returns a result — every hazard entry is a
defined value in `[0,1]`, every cumulative-incidence entry is a defined value
in `[0,1]`, and the cumulative incidence is non-decreasing along the grid.
On a valid noise configuration both rounds re-noise the classified records
from the same seed, so noised `interval_start` and `interval_end` coincide
and every grid time is a noised record's key time, which keeps the summed
at-risk counts positive on the whole grid. -/
theorem C7_curve_bounds (allOrgIds : List ℕ) (inc : Option (List ℕ))
    (nt : NoiseType) (snr : Option ℚ) (seed : Option ℤ)
    (orgData : ℕ → List Patient) (res : CentralResult)
    (hok : kaplan_meier_central allOrgIds inc nt snr seed orgData = Except.ok res) :
    (∀ i, i < res.km.hazard.length →
      ∃ h, res.km.hazard.getD i Option.none = Option.some h ∧ 0 ≤ h ∧ h ≤ 1) ∧
    (∀ i, i < res.km.cumInc.length →
      ∃ q, res.km.cumInc.getD i Option.none = Option.some q ∧ 0 ≤ q ∧ q ≤ 1) ∧
    (∀ i j qi qj, i ≤ j → j < res.km.cumInc.length →
      res.km.cumInc.getD i Option.none = Option.some qi →
      res.km.cumInc.getD j Option.none = Option.some qj → qi ≤ qj) := by
  simp only [kaplan_meier_central] at hok
  by_cases hq : (resolve_orgs allOrgIds inc).length < MINIMUM_ORGANIZATIONS
  · rw [if_pos hq] at hok
    exact Except.noConfusion hok
  · rw [if_neg hq] at hok
    have horgsne : resolve_orgs allOrgIds inc ≠ [] := by
      intro h0
      rw [h0] at hq
      exact hq (by simp [MINIMUM_ORGANIZATIONS])
    by_cases hcfg : noiseConfigOk nt snr
    · have hm1 : (resolve_orgs allOrgIds inc).mapM
          (fun o => get_unique_event_times_task (orgData o) nt snr seed) =
          Except.ok ((resolve_orgs allOrgIds inc).map
            (fun o => uniqueTimesValue (orgData o) nt snr seed)) :=
        mapM_ok_of_forall _ _ _
          (fun o _ => get_unique_event_times_task_ok hcfg _ seed)
      rw [hm1] at hok
      have hm2 : (resolve_orgs allOrgIds inc).mapM
          (fun o => get_km_event_table_task (orgData o)
            (List.insertionSort (fun a b : ℚ => a ≤ b)
              (((resolve_orgs allOrgIds inc).map
                (fun o => uniqueTimesValue (orgData o) nt snr seed)).flatten).dedup)
            nt snr seed) =
          Except.ok ((resolve_orgs allOrgIds inc).map
            (fun o => get_km_event_table (noisedRecords (orgData o) nt snr seed)
              (List.insertionSort (fun a b : ℚ => a ≤ b)
                (((resolve_orgs allOrgIds inc).map
                  (fun o => uniqueTimesValue (orgData o) nt snr seed)).flatten).dedup))) :=
        mapM_ok_of_forall _ _ _
          (fun o _ => get_km_event_table_task_ok hcfg _ _ seed)
      simp only [hm2] at hok
      rw [Except.ok.injEq] at hok
      have hkm : res.km = kmAggregate ((resolve_orgs allOrgIds inc).map
          (fun o => get_km_event_table (noisedRecords (orgData o) nt snr seed)
            (List.insertionSort (fun a b : ℚ => a ≤ b)
              (((resolve_orgs allOrgIds inc).map
                (fun o => uniqueTimesValue (orgData o) nt snr seed)).flatten).dedup))) := by
        rw [← hok]
      have hse : ∀ rs ∈ (resolve_orgs allOrgIds inc).map
          (fun o => noisedRecords (orgData o) nt snr seed),
          ∀ r ∈ rs, r.interval_start = r.interval_end := by
        intro rs hrs r hr
        rw [List.mem_map] at hrs
        obtain ⟨o, -, hrs⟩ := hrs
        rw [← hrs] at hr
        exact noisedRecords_start_eq_end _ _ _ _ r hr
      have hgrid : ∀ T ∈ List.insertionSort (fun a b : ℚ => a ≤ b)
          (((resolve_orgs allOrgIds inc).map
            (fun o => uniqueTimesValue (orgData o) nt snr seed)).flatten).dedup,
          ∃ rs ∈ (resolve_orgs allOrgIds inc).map
            (fun o => noisedRecords (orgData o) nt snr seed),
            ∃ r ∈ rs, r.interval_start = T := by
        intro T hT
        have hT' : T ∈ (((resolve_orgs allOrgIds inc).map
            (fun o => uniqueTimesValue (orgData o) nt snr seed)).flatten).dedup :=
          (List.perm_insertionSort _ _).mem_iff.mp hT
        rw [List.mem_dedup, List.mem_flatten] at hT'
        obtain ⟨l, hl, hTl⟩ := hT'
        rw [List.mem_map] at hl
        obtain ⟨o, ho, hlo⟩ := hl
        rw [← hlo] at hTl
        obtain ⟨r, hr, hrT⟩ :=
          noisedRecords_of_mem_uniqueTimes (orgData o) nt snr seed hTl
        exact ⟨noisedRecords (orgData o) nt snr seed,
          List.mem_map.mpr ⟨o, ho, rfl⟩, r, hr, hrT⟩
      have hb := km_curves_bounds_of_keyed
        ((resolve_orgs allOrgIds inc).map
          (fun o => noisedRecords (orgData o) nt snr seed))
        (List.insertionSort (fun a b : ℚ => a ≤ b)
          (((resolve_orgs allOrgIds inc).map
            (fun o => uniqueTimesValue (orgData o) nt snr seed)).flatten).dedup)
        hse hgrid
      have hmap : ((resolve_orgs allOrgIds inc).map
          (fun o => noisedRecords (orgData o) nt snr seed)).map
            (fun rs => get_km_event_table rs
              (List.insertionSort (fun a b : ℚ => a ≤ b)
                (((resolve_orgs allOrgIds inc).map
                  (fun o => uniqueTimesValue (orgData o) nt snr seed)).flatten).dedup)) =
          (resolve_orgs allOrgIds inc).map
            (fun o => get_km_event_table (noisedRecords (orgData o) nt snr seed)
              (List.insertionSort (fun a b : ℚ => a ≤ b)
                (((resolve_orgs allOrgIds inc).map
                  (fun o => uniqueTimesValue (orgData o) nt snr seed)).flatten).dedup)) := by
        rw [List.map_map]
        rfl
      rw [hmap] at hb
      rw [← hkm] at hb
      exact hb
    · obtain ⟨e, he⟩ := add_noise_error_of_not_configOk hcfg
      obtain ⟨o, os, horgseq⟩ := List.exists_cons_of_ne_nil horgsne
      rw [horgseq] at hok
      have htask : get_unique_event_times_task (orgData o) nt snr seed =
          Except.error e := by
        rw [get_unique_event_times_task, he]
      rw [mapM_cons_error (fun o => get_unique_event_times_task (orgData o) nt snr seed)
        o os e htask] at hok
      exact Except.noConfusion hok

/-- Witness for C7 at a concrete input: three organizations each holding
`patW`, noise `NONE`; the produced curve has a defined hazard in `[0,1]` at
its only grid time. -/
theorem C7_curve_bounds_witness :
    ∃ h, resC7w.km.hazard.getD 0 Option.none = Option.some h ∧ 0 ≤ h ∧ h ≤ 1 :=
  (C7_curve_bounds [0, 1, 2] Option.none NoiseType.none Option.none Option.none
    (fun _ => [patW]) resC7w (by with_unfolding_all rfl)).1 0
    (by with_unfolding_all decide)
